import Mathlib

/-!
Verification of the agent-orchestration and job-execution core of the
RFDiffusion agent repository, as a shallow embedding in Lean.

Python strings are modelled as `List Char` (named `Str` below); Python
dicts carrying JSON data are modelled by an explicit `Json` type with a
serializer and parser mirroring `json.dumps` / `json.loads` on the
fragment the code manipulates (objects, arrays, strings, integers,
booleans, null).  Fallible operations return `Except`/`Option`, and the
mutable job registry is threaded as explicit state.
-/

set_option maxHeartbeats 1000000
set_option maxRecDepth 100000

/-- Python strings, modelled as lists of characters. -/
abbrev Str := List Char

/-- Coerces a Lean string literal to the `Str` model. -/
def pystr (s : String) : Str := s.data

/-- Left brace character (written via its code point). -/
def lbrace : Char := Char.ofNat 123

/-- Right brace character (written via its code point). -/
def rbrace : Char := Char.ofNat 125

/-- Whitespace characters recognised by Python's `str.strip` / `str.split`. -/
def isPyWs (c : Char) : Bool :=
  c = ' ' || c = '\t' || c = '\n' || c = '\r' || c = Char.ofNat 11 || c = Char.ofNat 12

/-- Python `str.strip()`: removes leading and trailing whitespace. -/
def pyStrip (s : Str) : Str :=
  ((s.dropWhile isPyWs).reverse.dropWhile isPyWs).reverse

/-- Python `str.lower()` (ASCII fragment). -/
def pyLower (s : Str) : Str := s.map Char.toLower

/-- Python `str.split()` with no argument: splits on whitespace runs,
discarding empty fields. -/
def pySplitAux : Str → Str → List Str
  | [], acc => if acc.isEmpty then [] else [acc.reverse]
  | c :: cs, acc =>
    if isPyWs c then
      if acc.isEmpty then pySplitAux cs [] else acc.reverse :: pySplitAux cs []
    else pySplitAux cs (c :: acc)

/-- Python `str.split()` with no argument: splits on whitespace runs,
discarding empty fields. -/
def pySplit (s : Str) : List Str := pySplitAux s []

/-- Python substring containment `needle in hay`: some suffix of `hay` has
`needle` as a prefix. -/
def strContains (needle : Str) : Str → Bool
  | [] => needle.isEmpty
  | c :: cs => needle.isPrefixOf (c :: cs) || strContains needle cs

/-- Regex word character (`\w`, ASCII fragment): letters, digits, underscore. -/
def wordChar (c : Char) : Bool := c.isAlphanum || c = '_'

/-- Is the position at the start of `rest` a `\b` word boundary, assuming the
character just before it was a word character? -/
def boundaryAt (rest : Str) : Bool :=
  match rest with
  | [] => true
  | c :: _ => !wordChar c

/-! JSON values, mirroring the fragment of Python's `json` module that the
code manipulates: objects, arrays, strings, integers, booleans, null.
Objects are insertion-ordered lists of members, as Python dicts are. -/

mutual
inductive Json where
  | null : Json
  | bool (b : Bool) : Json
  | num (n : Int) : Json
  | str (s : Str) : Json
  | arr (elems : JArr) : Json
  | obj (members : JObj) : Json
inductive JArr where
  | nil : JArr
  | cons (hd : Json) (tl : JArr) : JArr
inductive JObj where
  | nil : JObj
  | cons (key : Str) (value : Json) (tl : JObj) : JObj
end

deriving instance DecidableEq for Json
deriving instance DecidableEq for JArr
deriving instance DecidableEq for JObj

/-- Decimal digit character for `d < 10`. -/
def digitChar (d : Nat) : Char := Char.ofNat (48 + d)

/-- Accumulates the decimal digits of `n` (fuel-driven so that the kernel
can evaluate it). -/
def natDigitsAux : Nat → Nat → Str → Str
  | 0, _, acc => acc
  | fuel + 1, n, acc =>
    if n = 0 then acc else natDigitsAux fuel (n / 10) (digitChar (n % 10) :: acc)

/-- Decimal representation of a natural number. -/
def printNat (n : Nat) : Str := if n = 0 then ['0'] else natDigitsAux n n []

/-- Decimal representation of an integer. -/
def printInt (n : Int) : Str :=
  if n < 0 then '-' :: printNat n.natAbs else printNat n.toNat

/-- Escape of one character inside a serialized JSON string. -/
def escChar (c : Char) : Str :=
  if c = '"' then ['\\', '"']
  else if c = '\\' then ['\\', '\\']
  else if c = '\n' then ['\\', 'n']
  else if c = '\t' then ['\\', 't']
  else if c = '\r' then ['\\', 'r']
  else [c]

def escapeStr : Str → Str
  | [] => []
  | c :: cs => escChar c ++ escapeStr cs

/-- Serialized JSON string with surrounding quotes. -/
def dumpStr (s : Str) : Str := '"' :: (escapeStr s ++ ['"'])

mutual
/-- Embedding of `json.dumps` (default separators `", "` and `": "`). -/
def dumpJson : Json → Str
  | .null => pystr "null"
  | .bool true => pystr "true"
  | .bool false => pystr "false"
  | .num n => printInt n
  | .str s => dumpStr s
  | .arr a => '[' :: (dumpArr a ++ [']'])
  | .obj o => lbrace :: (dumpObj o ++ [rbrace])
def dumpArr : JArr → Str
  | .nil => []
  | .cons j .nil => dumpJson j
  | .cons j (.cons j2 tl) => dumpJson j ++ ',' :: ' ' :: dumpArr (.cons j2 tl)
def dumpObj : JObj → Str
  | .nil => []
  | .cons k v .nil => dumpStr k ++ ':' :: ' ' :: dumpJson v
  | .cons k v (.cons k2 v2 tl) =>
    dumpStr k ++ ':' :: ' ' :: dumpJson v ++ ',' :: ' ' :: dumpObj (.cons k2 v2 tl)
end

/-- Does the object have a member with the given key? -/
def JObj.hasKey (key : Str) : JObj → Bool
  | .nil => false
  | .cons k _ tl => if k = key then true else JObj.hasKey key tl

/-- JSON whitespace accepted between tokens. -/
def isJsonWs (c : Char) : Bool := c = ' ' || c = '\t' || c = '\n' || c = '\r'

def skipWs : Str → Str
  | [] => []
  | c :: cs => if isJsonWs c then skipWs cs else c :: cs

/-- Unescape of one character after a backslash in a JSON string. -/
def unescChar (c : Char) : Option Char :=
  if c = '"' then some '"'
  else if c = '\\' then some '\\'
  else if c = '/' then some '/'
  else if c = 'n' then some '\n'
  else if c = 't' then some '\t'
  else if c = 'r' then some '\r'
  else none

/-- Parses the body of a JSON string after the opening quote, returning the
decoded string and the input after the closing quote. -/
def parseStrBody : Str → Option (Str × Str)
  | [] => none
  | c :: cs =>
    if c = '"' then some ([], cs)
    else if c = '\\' then
      match cs with
      | [] => none
      | e :: rest =>
        match unescChar e with
        | none => none
        | some d =>
          match parseStrBody rest with
          | none => none
          | some (s, r) => some (d :: s, r)
    else
      match parseStrBody cs with
      | none => none
      | some (s, r) => some (c :: s, r)

def isDigitCh (c : Char) : Bool := '0' ≤ c && c ≤ '9'

def digitVal (c : Char) : Nat := c.toNat - 48

def digitsToNat (ds : Str) : Nat := ds.foldl (fun a c => 10 * a + digitVal c) 0

/-- Parses a maximal nonempty digit run. -/
def parseNatTok (l : Str) : Option (Nat × Str) :=
  let ds := l.takeWhile isDigitCh
  if ds.isEmpty then none else some (digitsToNat ds, l.dropWhile isDigitCh)

/-- Parses an optionally signed integer token. -/
def parseIntTok : Str → Option (Int × Str)
  | '-' :: rest => (parseNatTok rest).map fun p => (-(p.1 : Int), p.2)
  | l => (parseNatTok l).map fun p => ((p.1 : Int), p.2)

/-- Consumes the literal `pre` from the front of `l`. -/
def eatLit (pre l : Str) : Option Str :=
  if pre.isPrefixOf l then some (l.drop pre.length) else none

mutual
/-- Fuel-driven parser for one JSON value; mirrors `json.loads` on the
fragment above.  The input is positioned at the first token character. -/
def parseVal : Nat → Str → Option (Json × Str)
  | 0, _ => none
  | fuel + 1, l =>
    match l with
    | [] => none
    | c :: cs =>
      if c = 'n' then (eatLit (pystr "ull") cs).map fun r => (Json.null, r)
      else if c = 't' then (eatLit (pystr "rue") cs).map fun r => (Json.bool true, r)
      else if c = 'f' then (eatLit (pystr "alse") cs).map fun r => (Json.bool false, r)
      else if c = '"' then (parseStrBody cs).map fun p => (Json.str p.1, p.2)
      else if c = '[' then
        match skipWs cs with
        | ']' :: r => some (Json.arr .nil, r)
        | l2 => (parseElems fuel l2).map fun p => (Json.arr p.1, p.2)
      else if c = lbrace then
        match skipWs cs with
        | [] => none
        | d :: r =>
          if d = rbrace then some (Json.obj .nil, r)
          else (parseMembers fuel (d :: r)).map fun p => (Json.obj p.1, p.2)
      else if c = '-' || isDigitCh c then
        (parseIntTok l).map fun p => (Json.num p.1, p.2)
      else none
/-- Parses the elements of a nonempty array, up to and including the
closing bracket. -/
def parseElems : Nat → Str → Option (JArr × Str)
  | 0, _ => none
  | fuel + 1, l =>
    match parseVal fuel l with
    | none => none
    | some (j, r) =>
      match skipWs r with
      | ',' :: r2 => (parseElems fuel (skipWs r2)).map fun p => (JArr.cons j p.1, p.2)
      | ']' :: r2 => some (JArr.cons j .nil, r2)
      | _ => none
/-- Parses the members of a nonempty object, up to and including the
closing brace. -/
def parseMembers : Nat → Str → Option (JObj × Str)
  | 0, _ => none
  | fuel + 1, l =>
    match l with
    | [] => none
    | c :: cs =>
      if c = '"' then
        match parseStrBody cs with
        | none => none
        | some (k, r) =>
          match skipWs r with
          | ':' :: r2 =>
            match parseVal fuel (skipWs r2) with
            | none => none
            | some (v, r3) =>
              match skipWs r3 with
              | ',' :: r4 => (parseMembers fuel (skipWs r4)).map fun p => (JObj.cons k v p.1, p.2)
              | d :: r4 => if d = rbrace then some (JObj.cons k v .nil, r4) else none
              | [] => none
          | _ => none
      else none
end

/-- Embedding of `json.loads`: parses one value and requires only
whitespace to remain. -/
def loads (s : Str) : Option Json :=
  match parseVal (2 * s.length + 2) (skipWs s) with
  | some (j, rest) => if skipWs rest = [] then some j else none
  | none => none

namespace model_router

/-- Model id returned for trivial messages (the fast tier). -/
def HAIKU : Str := pystr "claude-haiku-4-5-20251001"

/-- Model id returned for standard / tool-dispatch turns (the standard tier). -/
def SONNET : Str := pystr "claude-sonnet-4-6"

/-- Model id returned for complex scientific reasoning (the deep tier). -/
def OPUS : Str := pystr "claude-opus-4-6"

/-- Keywords indicating complex scientific reasoning (`_OPUS_KEYWORDS`). -/
def OPUS_KEYWORDS : List Str :=
  [pystr "explain", pystr "interpret", pystr "compare", pystr "strategy",
   pystr "analyze results", pystr "evaluate", pystr "design strategy",
   pystr "binding mode", pystr "interface quality", pystr "next steps",
   pystr "mechanism", pystr "recommend", pystr "trade-off", pystr "trade off",
   pystr "pros and cons", pystr "which design", pystr "summarize the results",
   pystr "scientific"]

/-- Alternatives of the first trivial-message pattern
`^(hi|hello|hey|thanks|thank you|ok|okay|yes|no|sure|got it|great)\b`. -/
def SIMPLE_ALTS : List Str :=
  [pystr "hi", pystr "hello", pystr "hey", pystr "thanks", pystr "thank you",
   pystr "ok", pystr "okay", pystr "yes", pystr "no", pystr "sure",
   pystr "got it", pystr "great"]

/-- First-group alternatives of the second pattern
`^(can you|could you|please) (help|assist)\b`. -/
def POLITE_ALTS : List Str := [pystr "can you", pystr "could you", pystr "please"]

/-- Second-group alternatives of the second pattern. -/
def HELP_ALTS : List Str := [pystr "help", pystr "assist"]

/-- Does some alternative match at the start of `s`, followed by a word
boundary (regex `^(a1|...|an)\b` anchored match)? -/
def matchAltsAtStart (alts : List Str) (s : Str) : Bool :=
  alts.any fun a => a.isPrefixOf s && boundaryAt (s.drop a.length)

/-- Match of `_SIMPLE_PATTERNS[1]`: `^(can you|could you|please) (help|assist)\b`. -/
def matchPolitePattern (s : Str) : Bool :=
  POLITE_ALTS.any fun p => HELP_ALTS.any fun q =>
    let pre := p ++ ' ' :: q
    pre.isPrefixOf s && boundaryAt (s.drop pre.length)

/-- Does any of the two `_SIMPLE_PATTERNS` match at the start of `s`? -/
def matchesSimplePattern (s : Str) : Bool :=
  matchAltsAtStart SIMPLE_ALTS s || matchPolitePattern s

/-- Embedding of `_has_opus_keyword`: substring containment of a keyword. -/
def _has_opus_keyword (msg_lower : Str) : Bool :=
  OPUS_KEYWORDS.any fun kw => strContains kw msg_lower

/-- Embedding of `_classify_complexity` from `model_router.py`. -/
def _classify_complexity (message : Str) : Str :=
  let msg_lower := pyStrip (pyLower message)
  if matchesSimplePattern msg_lower then HAIKU
  else if decide ((pySplit msg_lower).length ≤ 5) && !_has_opus_keyword msg_lower then HAIKU
  else if _has_opus_keyword msg_lower then OPUS
  else SONNET

/-- Embedding of `select_model` from `model_router.py`. -/
def select_model (user_message : Str) (iteration : Nat) (has_tool_use : Bool) : Str :=
  if iteration > 0 && has_tool_use then SONNET
  else _classify_complexity user_message

/-- C7: `select_model` is pure and satisfies: when `iteration > 0` and
`priorToolUse` holds it returns the standard tier (SONNET); otherwise it
classifies the lowered, stripped message in order — a trivial-greeting
pattern match, or at most 5 words with no complex-reasoning keyword, yields
the fast tier (HAIKU); else a complex-reasoning keyword yields the
deep-reasoning tier (OPUS); else the standard tier.  In particular
`select_model "hello" 0 false` is the fast tier and
`select_model "explain the binding mode" 0 false` is the deep tier. -/
theorem select_model_spec :
    (∀ (m : Str) (it : Nat) (ptu : Bool), 0 < it → ptu = true →
        select_model m it ptu = SONNET)
  ∧ (∀ (m : Str) (it : Nat) (ptu : Bool), ¬(0 < it ∧ ptu = true) →
      (matchesSimplePattern (pyStrip (pyLower m)) = true →
        select_model m it ptu = HAIKU)
      ∧ (matchesSimplePattern (pyStrip (pyLower m)) = false →
         (pySplit (pyStrip (pyLower m))).length ≤ 5 →
         _has_opus_keyword (pyStrip (pyLower m)) = false →
        select_model m it ptu = HAIKU)
      ∧ (matchesSimplePattern (pyStrip (pyLower m)) = false →
         _has_opus_keyword (pyStrip (pyLower m)) = true →
        select_model m it ptu = OPUS)
      ∧ (matchesSimplePattern (pyStrip (pyLower m)) = false →
         _has_opus_keyword (pyStrip (pyLower m)) = false →
         5 < (pySplit (pyStrip (pyLower m))).length →
        select_model m it ptu = SONNET))
  ∧ select_model (pystr "hello") 0 false = HAIKU
  ∧ select_model (pystr "explain the binding mode") 0 false = OPUS := by
  refine ⟨?_, ?_, by decide, by decide⟩
  · intro m it ptu hit hptu
    subst hptu
    simp [select_model, hit]
  · intro m it ptu hcond
    have hb : (decide (0 < it) && ptu) = false := by
      cases ptu
      · simp
      · simp only [Bool.and_true, decide_eq_false_iff_not]
        intro h
        exact hcond ⟨h, rfl⟩
    refine ⟨?_, ?_, ?_, ?_⟩ <;> intro h1 <;>
      simp [select_model, hb, _classify_complexity, h1]
    · intro h2 h3
      simp [h2, h3]
    · intro h2
      simp [h2]
    · intro h2 h3
      simp [h2, h3, Nat.not_le.mpr h3]

/-- Witness for C7: the theorem applied at concrete inputs, covering a
tool-orchestration turn and a trivial greeting. -/
theorem select_model_spec_witness :
    select_model (pystr "run the job") 2 true = SONNET
    ∧ select_model (pystr "hi there") 0 false = HAIKU :=
  ⟨select_model_spec.1 (pystr "run the job") 2 true (by decide) rfl,
   (select_model_spec.2.1 (pystr "hi there") 0 false (by decide)).1 (by decide)⟩

end model_router

namespace job_manager

/-- Python-level errors raised by the job manager: `HTTPException(status,
detail)` and `ValueError(msg)`. -/
inductive PyErr where
  | http (status : Nat) (detail : Str)
  | valueError (msg : Str)
deriving DecidableEq

/-- Embedding of `_VALID_STATES` from `job_manager.py`. -/
def VALID_STATES : List Str :=
  [pystr "pending", pystr "queued", pystr "running",
   pystr "completed", pystr "failed", pystr "cancelled"]

/-- States that stamp `completed_at` on entry. -/
def TERMINAL_STATES : List Str :=
  [pystr "completed", pystr "failed", pystr "cancelled"]

/-- One record of the in-memory `_jobs` dict. -/
structure JobRec where
  job_id : Str
  status : Str
  progress : Option ℚ
  message : Str
  input_pdb_id : Str
  contigs : Str
  params : Json
  output_pdb_ids : List Str
  started_at : Str
  completed_at : Option Str
deriving DecidableEq

/-- The `_jobs` registry: an insertion-ordered map from job id to record. -/
abbrev JobManager := List (Str × JobRec)

/-- Embedding of `self._jobs.get(job_id)`. -/
def findJob (jm : JobManager) (jobId : Str) : Option JobRec :=
  match jm.find? (fun p => p.1 = jobId) with
  | some p => some p.2
  | none => none

/-- Replaces the record stored under `jobId`. -/
def setJob (jm : JobManager) (jobId : Str) (r : JobRec) : JobManager :=
  jm.map fun p => if p.1 = jobId then (p.1, r) else p

/-- Embedding of `JobManager.create_job`; the fresh uuid is passed in as
`jobId`. -/
def create_job (jm : JobManager) (jobId input_pdb_id contigs : Str)
    (params : Json) (now : Str) : JobManager :=
  jm ++ [(jobId,
    { job_id := jobId, status := pystr "pending", progress := none,
      message := pystr "Job created", input_pdb_id := input_pdb_id,
      contigs := contigs, params := params, output_pdb_ids := [],
      started_at := now, completed_at := none })]

/-- Embedding of `JobManager.update_status`.  Mirrors the source order:
lookup (may raise 404), then status validation (may raise `ValueError`),
then the field mutations; returns the registry after the call together
with the exception raised, if any. -/
def appliedUpd (job : JobRec) (status : Str) (progress : Option ℚ)
    (message : Option Str) (now : Str) : JobRec :=
  let job := { job with status := status }
  let job := match progress with
    | some p => { job with progress := some p }
    | none => job
  let job := match message with
    | some m => { job with message := m }
    | none => job
  if status ∈ TERMINAL_STATES then { job with completed_at := some now } else job

def update_status (jm : JobManager) (jobId status : Str)
    (progress : Option ℚ) (message : Option Str) (now : Str) :
    JobManager × Option PyErr :=
  match findJob jm jobId with
  | none => (jm, some (.http 404 (pystr "Job not found: " ++ jobId)))
  | some job =>
    if status ∈ VALID_STATES then
      (setJob jm jobId (appliedUpd job status progress message now), none)
    else (jm, some (.valueError (pystr "Invalid job status: " ++ status)))

/-- Embedding of `JobManager.set_results`. -/
def set_results (jm : JobManager) (jobId : Str) (output_pdb_ids : List Str) :
    JobManager × Option PyErr :=
  match findJob jm jobId with
  | none => (jm, some (.http 404 (pystr "Job not found: " ++ jobId)))
  | some job => (setJob jm jobId { job with output_pdb_ids := output_pdb_ids }, none)

/-- Payload returned by `JobManager.get_results`. -/
structure ResultsPayload where
  job_id : Str
  output_pdb_ids : List Str
  num_designs : Nat
deriving DecidableEq

/-- Embedding of `JobManager.get_results` (read-only). -/
def get_results (jm : JobManager) (jobId : Str) : Except PyErr ResultsPayload :=
  match findJob jm jobId with
  | none => .error (.http 404 (pystr "Job not found: " ++ jobId))
  | some job =>
    if job.status = pystr "completed" then
      .ok ⟨job.job_id, job.output_pdb_ids, job.output_pdb_ids.length⟩
    else
      .error (.http 400 (pystr "Job " ++ jobId ++ pystr " is not completed (status: "
        ++ job.status ++ pystr ")"))

theorem findJob_setJob_self (jm : JobManager) (jobId : Str) (r rec : JobRec)
    (h : findJob jm jobId = some rec) :
    findJob (setJob jm jobId r) jobId = some r := by
  induction jm with
  | nil => simp [findJob] at h
  | cons p tl ih =>
    by_cases hp : p.1 = jobId
    · simp [findJob, setJob, hp]
    · simp only [findJob, setJob, List.map_cons, List.find?] at h ⊢
      simp only [hp, if_neg, decide_eq_true_eq, if_false] at h ⊢
      simpa [findJob, setJob] using ih (by simpa [findJob] using h)

/-- Sample job record used in concrete evaluations. -/
def sampleRec (status : Str) : JobRec :=
  { job_id := pystr "j1", status := status, progress := some 1,
    message := pystr "done", input_pdb_id := pystr "in1",
    contigs := pystr "A1-50", params := Json.null,
    output_pdb_ids := [pystr "f1"], started_at := pystr "t0",
    completed_at := some (pystr "t1") }

/-- Counterexample for C2: a record whose status is the terminal state
`completed` is moved to `running` by a subsequent `update_status` call —
the manager does not reject transitions out of terminal states. -/
theorem update_status_leaves_terminal :
    (findJob (update_status [(pystr "j1", sampleRec (pystr "completed"))]
        (pystr "j1") (pystr "running") none none (pystr "t2")).1
      (pystr "j1")).map JobRec.status = some (pystr "running")
    ∧ pystr "running" ≠ pystr "completed" := by
  constructor
  · decide
  · decide

/-- C2 (amended): `update_status` validates the requested status against
the fixed valid-state set but never inspects the record's current status;
any call with a valid status succeeds and overwrites the stored status,
including transitions out of the terminal states. -/
theorem update_status_overwrites :
    ∀ (jm : JobManager) (jobId status : Str) (rec : JobRec)
      (progress : Option ℚ) (message : Option Str) (now : Str),
      findJob jm jobId = some rec →
      status ∈ VALID_STATES →
      (update_status jm jobId status progress message now).2 = none
      ∧ (findJob (update_status jm jobId status progress message now).1 jobId).map
          JobRec.status = some status := by
  intro jm jobId status rec progress message now hfind hvalid
  simp only [update_status, hfind, if_pos hvalid]
  refine ⟨by simp, ?_⟩
  rw [findJob_setJob_self jm jobId _ rec hfind]
  cases progress <;> cases message <;>
    by_cases ht : status ∈ TERMINAL_STATES <;> simp [appliedUpd, ht]

/-- Witness for the amended C2 at a concrete registry. -/
theorem update_status_overwrites_witness :
    (update_status [(pystr "j1", sampleRec (pystr "failed"))]
      (pystr "j1") (pystr "queued") none none (pystr "t2")).2 = none
    ∧ (findJob (update_status [(pystr "j1", sampleRec (pystr "failed"))]
        (pystr "j1") (pystr "queued") none none (pystr "t2")).1
      (pystr "j1")).map JobRec.status = some (pystr "queued") :=
  update_status_overwrites [(pystr "j1", sampleRec (pystr "failed"))]
    (pystr "j1") (pystr "queued") (sampleRec (pystr "failed")) none none
    (pystr "t2") (by decide) (by decide)

/-- C8: `get_results` fails with `NotFound` (HTTP 404) for an absent job
id, fails with `InvalidState` (HTTP 400) for any registered job whose
status is not `completed`, and for a completed job returns exactly the
output ids registered via `set_results`, in order. -/
theorem get_results_contract :
    (∀ (jm : JobManager) (jobId : Str), findJob jm jobId = none →
      get_results jm jobId = .error (.http 404 (pystr "Job not found: " ++ jobId)))
    ∧ (∀ (jm : JobManager) (jobId : Str) (rec : JobRec),
        findJob jm jobId = some rec → rec.status ≠ pystr "completed" →
        get_results jm jobId = .error (.http 400 (pystr "Job " ++ jobId
          ++ pystr " is not completed (status: " ++ rec.status ++ pystr ")")))
    ∧ (∀ (jm : JobManager) (jobId : Str) (rec : JobRec) (ids : List Str),
        findJob jm jobId = some rec → rec.status = pystr "completed" →
        get_results (set_results jm jobId ids).1 jobId
          = .ok ⟨rec.job_id, ids, ids.length⟩) := by
  refine ⟨?_, ?_, ?_⟩
  · intro jm jobId h
    simp [get_results, h]
  · intro jm jobId rec h hs
    simp [get_results, h, hs]
  · intro jm jobId rec ids h hs
    simp only [set_results, h]
    rw [get_results, findJob_setJob_self jm jobId _ rec h]
    simp [hs]

/-- Witness for C8 at concrete registries: an absent id, a pending job,
and a completed job carrying two registered output ids. -/
theorem get_results_contract_witness :
    get_results [] (pystr "ghost")
      = .error (.http 404 (pystr "Job not found: " ++ pystr "ghost"))
    ∧ get_results [(pystr "j1", sampleRec (pystr "pending"))] (pystr "j1")
      = .error (.http 400 (pystr "Job " ++ pystr "j1"
          ++ pystr " is not completed (status: " ++ pystr "pending" ++ pystr ")"))
    ∧ get_results (set_results [(pystr "j1", sampleRec (pystr "completed"))]
        (pystr "j1") [pystr "f1", pystr "f2"]).1 (pystr "j1")
      = .ok ⟨pystr "j1", [pystr "f1", pystr "f2"], 2⟩ :=
  ⟨get_results_contract.1 [] (pystr "ghost") (by decide),
   get_results_contract.2.1 [(pystr "j1", sampleRec (pystr "pending"))]
     (pystr "j1") (sampleRec (pystr "pending")) (by decide) (by decide),
   get_results_contract.2.2 [(pystr "j1", sampleRec (pystr "completed"))]
     (pystr "j1") (sampleRec (pystr "completed")) [pystr "f1", pystr "f2"]
     (by decide) (by decide)⟩

/-- C10: `update_status` is atomic on error — an invalid status string
raises `ValueError` and an unknown job id raises HTTP 404, and in both
cases the registry (hence every field of every record) is returned
unchanged, because validation precedes every mutation. -/
theorem update_status_atomic :
    (∀ (jm : JobManager) (jobId status : Str) (rec : JobRec)
       (progress : Option ℚ) (message : Option Str) (now : Str),
      findJob jm jobId = some rec → status ∉ VALID_STATES →
      update_status jm jobId status progress message now
        = (jm, some (.valueError (pystr "Invalid job status: " ++ status))))
    ∧ (∀ (jm : JobManager) (jobId status : Str)
       (progress : Option ℚ) (message : Option Str) (now : Str),
      findJob jm jobId = none →
      update_status jm jobId status progress message now
        = (jm, some (.http 404 (pystr "Job not found: " ++ jobId)))) := by
  constructor
  · intro jm jobId status rec progress message now hfind hinv
    simp [update_status, hfind, hinv]
  · intro jm jobId status progress message now hfind
    simp [update_status, hfind]

/-- Witness for C10: a bogus status against a registered job, and an
update against an unknown id, both leave the registry unchanged. -/
theorem update_status_atomic_witness :
    update_status [(pystr "j1", sampleRec (pystr "running"))]
      (pystr "j1") (pystr "bogus") (some 1) (some (pystr "m")) (pystr "t2")
      = ([(pystr "j1", sampleRec (pystr "running"))],
         some (.valueError (pystr "Invalid job status: " ++ pystr "bogus")))
    ∧ update_status [] (pystr "ghost") (pystr "running") none none (pystr "t2")
      = ([], some (.http 404 (pystr "Job not found: " ++ pystr "ghost"))) :=
  ⟨update_status_atomic.1 [(pystr "j1", sampleRec (pystr "running"))]
     (pystr "j1") (pystr "bogus") (sampleRec (pystr "running"))
     (some 1) (some (pystr "m")) (pystr "t2") (by decide) (by decide),
   update_status_atomic.2 [] (pystr "ghost") (pystr "running")
     none none (pystr "t2") (by decide)⟩

end job_manager

namespace context_manager

/-- Content block of a conversation message (`dict` with a `type` tag in
the source); `other` stands for blocks of unrecognised type, which every
transform passes through. -/
inductive Block where
  | thinking (text signature : Str)
  | text (t : Str)
  | toolUse (id name : Str) (input : Json)
  | toolResult (tool_use_id : Str) (content : Str)
  | other
deriving DecidableEq

/-- Message content: either a plain string or a list of blocks. -/
inductive Content where
  | str (s : Str)
  | blocks (bs : List Block)
deriving DecidableEq

/-- One conversation message. -/
structure Msg where
  role : Str
  content : Content
deriving DecidableEq

def MAX_TOOL_RESULT_CHARS : Nat := 2000

def MAX_SEQUENCE_PREVIEW_CHARS : Nat := 20

def TOKEN_THRESHOLD : Nat := 80000

def CHARS_PER_TOKEN : Nat := 4

/-- The marker appended by the hard truncation in `compress_tool_result`. -/
def TRUNC_MARKER : Str := pystr "\n...[truncated to 2000 chars]"

def pruneBlock : Block → Block
  | .thinking _ sig => .thinking [] sig
  | b => b

/-- Embedding of `prune_thinking_blocks`: strips the text of every thinking
block of assistant messages with block content, keeping the signature. -/
def prune_thinking_blocks (messages : List Msg) : List Msg :=
  messages.map fun msg =>
    match msg.content with
    | .blocks bs =>
      if msg.role = pystr "assistant" then ⟨msg.role, .blocks (bs.map pruneBlock)⟩
      else msg
    | _ => msg

mutual
/-- Embedding of the member step of `_trim_recursive`: a string value under
the key `sequence_preview` longer than the cap is truncated with an
ellipsis; container values are recursed into. -/
def trimVal (key : Str) : Json → Json
  | .str s =>
    if key = pystr "sequence_preview" ∧ MAX_SEQUENCE_PREVIEW_CHARS < s.length then
      .str (s.take MAX_SEQUENCE_PREVIEW_CHARS ++ pystr "...")
    else .str s
  | .arr a => .arr (trimArr a)
  | .obj o => .obj (trimObj o)
  | v => v
/-- Embedding of `_trim_recursive` on a list item. -/
def trimElem : Json → Json
  | .arr a => .arr (trimArr a)
  | .obj o => .obj (trimObj o)
  | v => v
def trimArr : JArr → JArr
  | .nil => .nil
  | .cons v tl => .cons (trimElem v) (trimArr tl)
def trimObj : JObj → JObj
  | .nil => .nil
  | .cons k v tl => .cons k (trimVal k v) (trimObj tl)
end

/-- Embedding of `_trim_sequence_previews`: trims only when the payload
parses as a JSON object, re-serializing it afterwards. -/
def _trim_sequence_previews (result_str : Str) : Str :=
  match loads result_str with
  | some (.obj o) => dumpJson (.obj (trimObj o))
  | _ => result_str

/-- Does the payload parse as a JSON object with a top-level `error` key? -/
def isErrorObj (s : Str) : Bool :=
  match loads s with
  | some (.obj o) => o.hasKey (pystr "error")
  | _ => false

/-- Embedding of `compress_tool_result`. -/
def compress_tool_result (result_str : Str) : Str :=
  if isErrorObj result_str then result_str
  else
    let t := _trim_sequence_previews result_str
    if MAX_TOOL_RESULT_CHARS < t.length then
      t.take (MAX_TOOL_RESULT_CHARS - 60) ++ TRUNC_MARKER
    else t

def blockChars : Block → Nat
  | .text t => t.length
  | .toolResult _ c => c.length
  | .toolUse _ _ input => (dumpJson input).length
  | .thinking t _ => t.length
  | .other => 0

def msgChars (m : Msg) : Nat :=
  match m.content with
  | .str s => s.length
  | .blocks bs => (bs.map blockChars).sum

/-- Embedding of `estimate_tokens`: total characters divided by 4. -/
def estimate_tokens (messages : List Msg) : Nat :=
  (messages.map msgChars).sum / CHARS_PER_TOKEN

def condenseBlock : Block → Block
  | .thinking _ sig => .thinking [] sig
  | .text t => if 200 < t.length then .text (t.take 200 ++ pystr "...") else .text t
  | .toolUse i n inp => .toolUse i n inp
  | .toolResult id c =>
    if 200 < c.length then .toolResult id (c.take 200 ++ pystr "...[condensed]")
    else .toolResult id c
  | .other => .other

/-- Embedding of `_condense_message`. -/
def _condense_message (msg : Msg) : Msg :=
  match msg.content with
  | .str c => if 200 < c.length then ⟨msg.role, .str (c.take 200 ++ pystr "...")⟩ else msg
  | .blocks bs => ⟨msg.role, .blocks (bs.map condenseBlock)⟩

/-- Embedding of `maybe_summarize_history`: no-op unless the estimated
token count exceeds the threshold and more than 10 messages exist; else
keeps the first 2 and last 8 messages and condenses the middle. -/
def maybe_summarize_history (messages : List Msg) : List Msg :=
  if estimate_tokens messages ≤ TOKEN_THRESHOLD then messages
  else if messages.length ≤ 10 then messages
  else
    messages.take 2
      ++ ((messages.drop 2).take (messages.length - 10)).map _condense_message
      ++ messages.drop (messages.length - 8)

/-- Does `l` end with `suffix` (Python `str.endswith`)? -/
def strEndsWith (l suffix : Str) : Bool :=
  suffix.isPrefixOf (l.drop (l.length - suffix.length))

theorem strEndsWith_append (x m : Str) : strEndsWith (x ++ m) m = true := by
  unfold strEndsWith
  rw [List.length_append, Nat.add_sub_cancel, List.drop_left]
  simp [List.isPrefixOf_iff_prefix]
/-- Key used by the counterexample object. -/
def spKey : Str := pystr "sequence_preview"

/-- Counterexample input for C4: a 2001-character JSON object whose bulk is
a `sequence_preview` value; structural trimming alone brings it under the
cap, so no truncation marker is appended. -/
def longPreviewInput : Str :=
  lbrace :: '"' :: (spKey ++ '"' :: ':' :: ' ' :: '"' ::
    (List.replicate 1977 'a' ++ ['"', rbrace]))

theorem skipWs_cons_of_not (c : Char) (cs : Str) (h : isJsonWs c = false) :
    skipWs (c :: cs) = c :: cs := by
  simp [skipWs, h]

theorem parseStrBody_plain :
    ∀ (s rest : Str), (∀ c ∈ s, c ≠ '"' ∧ c ≠ '\\') →
      parseStrBody (s ++ '"' :: rest) = some (s, rest) := by
  intro s
  induction s with
  | nil =>
    intro rest _
    rw [List.nil_append, parseStrBody.eq_def]
    simp
  | cons c cs ih =>
    intro rest h
    have hc := h c (by simp)
    rw [List.cons_append, parseStrBody.eq_def]
    simp only [if_neg hc.1, if_neg hc.2]
    rw [ih rest (fun d hd => h d (by simp [hd]))]

theorem parseVal_lbrace (fuel : Nat) (cs : Str) :
    parseVal (fuel + 1) (lbrace :: cs) =
      (match skipWs cs with
       | [] => none
       | d :: r =>
         if d = rbrace then some (Json.obj .nil, r)
         else (parseMembers fuel (d :: r)).map fun p => (Json.obj p.1, p.2)) := by
  simp +decide [parseVal]

theorem parseVal_quote (fuel : Nat) (cs : Str) :
    parseVal (fuel + 1) ('"' :: cs) =
      (parseStrBody cs).map fun p => (Json.str p.1, p.2) := by
  simp +decide [parseVal]

theorem parseMembers_quote (fuel : Nat) (cs : Str) :
    parseMembers (fuel + 1) ('"' :: cs) =
      (match parseStrBody cs with
       | none => none
       | some (k, r) =>
         match skipWs r with
         | ':' :: r2 =>
           match parseVal fuel (skipWs r2) with
           | none => none
           | some (v, r3) =>
             match skipWs r3 with
             | ',' :: r4 => (parseMembers fuel (skipWs r4)).map fun p => (JObj.cons k v p.1, p.2)
             | d :: r4 => if d = rbrace then some (JObj.cons k v .nil, r4) else none
             | [] => none
         | _ => none) := by
  simp +decide [parseMembers]

theorem replicate_plain (n : Nat) :
    ∀ c ∈ List.replicate n 'a', c ≠ '"' ∧ c ≠ '\\' := by
  intro c hc
  rw [List.eq_of_mem_replicate hc]
  decide

theorem longPreviewInput_length : longPreviewInput.length = 2001 := by
  simp [longPreviewInput, spKey, pystr]

theorem parseMembers_longPreview (k : Nat) :
    parseMembers (k + 2) ('"' :: (spKey ++ '"' :: ':' :: ' ' :: '"' ::
        (List.replicate 1977 'a' ++ ['"', rbrace])))
      = some (JObj.cons spKey (Json.str (List.replicate 1977 'a')) JObj.nil, []) := by
  rw [show k + 2 = (k + 1) + 1 from rfl, parseMembers_quote]
  rw [parseStrBody_plain spKey _ (by decide)]
  simp only
  rw [skipWs_cons_of_not ':' _ (by decide)]
  simp only
  rw [show skipWs (' ' :: '"' :: (List.replicate 1977 'a' ++ ['"', rbrace]))
      = skipWs ('"' :: (List.replicate 1977 'a' ++ ['"', rbrace])) by
    rw [skipWs]
    rw [if_pos (by decide : isJsonWs ' ' = true)]]
  rw [skipWs_cons_of_not '"' _ (by decide)]
  rw [parseVal_quote]
  rw [parseStrBody_plain _ _ (replicate_plain 1977)]
  simp only [Option.map]
  rw [skipWs_cons_of_not rbrace _ (by decide)]
  show (if rbrace = rbrace then _ else none) = _
  rw [if_pos rfl]

theorem loads_longPreviewInput :
    loads longPreviewInput
      = some (Json.obj (JObj.cons spKey (Json.str (List.replicate 1977 'a')) JObj.nil)) := by
  rw [loads, longPreviewInput_length]
  rw [show (2 * 2001 + 2 : Nat) = (4002 + 1) + 1 from rfl]
  rw [show skipWs longPreviewInput = longPreviewInput from
    skipWs_cons_of_not _ _ (by decide)]
  rw [longPreviewInput, parseVal_lbrace]
  rw [skipWs_cons_of_not '"' _ (by decide)]
  simp only [show ('"' = rbrace) = False by decide, if_false]
  rw [parseMembers_longPreview 4001]
  simp only [Option.map]
  rfl

theorem isErrorObj_longPreview : isErrorObj longPreviewInput = false := by
  simp only [isErrorObj, loads_longPreviewInput]
  decide

theorem trim_longPreview :
    _trim_sequence_previews longPreviewInput
      = dumpJson (Json.obj (JObj.cons spKey
          (Json.str (List.replicate 20 'a' ++ pystr "...")) JObj.nil)) := by
  simp only [_trim_sequence_previews, loads_longPreviewInput]
  simp only [trimObj, trimVal, MAX_SEQUENCE_PREVIEW_CHARS, List.length_replicate]
  rw [if_pos ⟨rfl, by norm_num⟩, List.take_replicate]
  norm_num

/-- Counterexample for C4: `longPreviewInput` is longer than 2000
characters and is not an error object, yet its compression does not end
with the truncation marker (structural trimming alone brought it under the
cap), refuting the claim that `compress` always appends the marker to such
inputs. -/
theorem compress_marker_counterexample :
    2000 < longPreviewInput.length
    ∧ isErrorObj longPreviewInput = false
    ∧ strEndsWith (compress_tool_result longPreviewInput) TRUNC_MARKER = false := by
  refine ⟨by rw [longPreviewInput_length]; norm_num, isErrorObj_longPreview, ?_⟩
  rw [compress_tool_result]
  simp only [isErrorObj_longPreview, Bool.false_eq_true, if_false, trim_longPreview]
  decide

/-- C4 (amended): for a payload that is not an error object, the
compressed result never exceeds 2000 characters; and whenever the
structurally trimmed payload still exceeds 2000 characters, the result
ends with the truncation marker. -/
theorem compress_bounds :
    ∀ s : Str, isErrorObj s = false → 2000 < s.length →
      (compress_tool_result s).length ≤ 2000
      ∧ (2000 < (_trim_sequence_previews s).length →
          strEndsWith (compress_tool_result s) TRUNC_MARKER = true) := by
  intro s herr _
  unfold compress_tool_result
  simp only [herr, Bool.false_eq_true, if_false]
  by_cases h : MAX_TOOL_RESULT_CHARS < (_trim_sequence_previews s).length
  · simp only [h, if_pos]
    constructor
    · rw [List.length_append, List.length_take]
      have : TRUNC_MARKER.length = 29 := by decide
      unfold MAX_TOOL_RESULT_CHARS at h ⊢
      omega
    · intro _
      exact strEndsWith_append _ _
  · simp only [h, if_neg, if_false]
    unfold MAX_TOOL_RESULT_CHARS at h
    exact ⟨by omega, fun hc => absurd hc h⟩

theorem parseVal_other (fuel : Nat) (cs : Str) : parseVal (fuel + 1) ('x' :: cs) = none := by
  simp +decide [parseVal]

theorem loads_allx : loads (List.replicate 2001 'x') = none := by
  rw [loads, List.length_replicate]
  rw [show List.replicate 2001 'x' = 'x' :: List.replicate 2000 'x' from rfl]
  rw [skipWs_cons_of_not 'x' _ (by decide)]
  rw [show (2 * 2001 + 2 : Nat) = 4003 + 1 from rfl, parseVal_other]

/-- Witness for the amended C4 at a concrete 2001-character non-JSON
payload, with both hypotheses and the inner implication discharged. -/
theorem compress_bounds_witness :
    (compress_tool_result (List.replicate 2001 'x')).length ≤ 2000
    ∧ strEndsWith (compress_tool_result (List.replicate 2001 'x')) TRUNC_MARKER = true :=
  have herr : isErrorObj (List.replicate 2001 'x') = false := by
    unfold isErrorObj
    rw [loads_allx]
  have hlen : 2000 < (List.replicate 2001 'x').length := by
    rw [List.length_replicate]; norm_num
  have htrim : 2000 < (_trim_sequence_previews (List.replicate 2001 'x')).length := by
    simp only [_trim_sequence_previews, loads_allx]
    exact hlen
  ⟨(compress_bounds (List.replicate 2001 'x') herr hlen).1,
   (compress_bounds (List.replicate 2001 'x') herr hlen).2 htrim⟩

end context_manager

namespace tool_handlers

/-- Names registered in the dispatch table of `handle_tool_call`. -/
def knownTools : List Str :=
  [pystr "upload_pdb", pystr "fetch_pdb", pystr "run_rfdiffusion",
   pystr "check_job_status", pystr "get_results", pystr "visualize_structure",
   pystr "get_pdb_info"]

/-- Abstract behavior of the registered handlers: each call either returns
a serialized result string or raises an exception carrying the message
`str(exc)`.  Handlers perform I/O against external collaborators, so they
are modelled as an environment. -/
def HandlerEnv := Str → Json → Except Str Str

/-- Serialized `{error: msg}` payload produced by the dispatcher. -/
def errorPayload (msg : Str) : Str :=
  dumpJson (Json.obj (JObj.cons (pystr "error") (Json.str msg) JObj.nil))

/-- Embedding of `handle_tool_call`: unknown names get an unknown-tool
error payload; a handler exception is caught and serialized as an error
payload; otherwise the handler result is returned as-is. -/
def handle_tool_call (env : HandlerEnv) (tool_name : Str) (tool_input : Json) : Str :=
  if tool_name ∈ knownTools then
    match env tool_name tool_input with
    | .ok s => s
    | .error exc => errorPayload exc
  else errorPayload (pystr "Unknown tool: " ++ tool_name)

/-- C3: for every tool name (known or not), every input, and every handler
behavior (including handlers that raise), `handle_tool_call` returns a
string that is either the successful handler result or the serialization
of a JSON object whose single member is an `error` key with a message; in
particular it never propagates a handler exception. -/
theorem handle_tool_call_total :
    ∀ (env : HandlerEnv) (name : Str) (input : Json),
      (∃ s, name ∈ knownTools ∧ env name input = .ok s
        ∧ handle_tool_call env name input = s)
      ∨ (∃ msg, handle_tool_call env name input
          = dumpJson (Json.obj (JObj.cons (pystr "error") (Json.str msg) JObj.nil))) := by
  intro env name input
  by_cases hk : name ∈ knownTools
  · cases henv : env name input with
    | ok s =>
      refine Or.inl ⟨s, hk, rfl, ?_⟩
      simp [handle_tool_call, hk, henv]
    | error exc =>
      refine Or.inr ⟨exc, ?_⟩
      simp [handle_tool_call, hk, henv, errorPayload]
  · exact Or.inr ⟨pystr "Unknown tool: " ++ name,
      by simp [handle_tool_call, hk, errorPayload]⟩

end tool_handlers

namespace claude_agent

open context_manager

/-- Apostrophe character. -/
def apos : Char := Char.ofNat 39

def MAX_AGENT_ITERATIONS : Nat := 15

/-- Fixed text emitted when the iteration cap is reached. -/
def LIMIT_MSG : Str :=
  pystr "I" ++ apos :: pystr "ve reached the maximum number of tool-use steps for this turn. Please send another message to continue."

/-- Content block of one provider response. -/
inductive RBlock where
  | thinking (text signature : Str)
  | text (t : Str)
  | toolUse (id name : Str) (input : Json)
deriving DecidableEq

/-- Outcome of one provider call: an API error, or content blocks with a
stop signal. -/
inductive PResult where
  | apiError (msg : Str)
  | response (content : List RBlock) (stop_reason : Str)
deriving DecidableEq

/-- Events yielded to the SSE stream by `run_agent_streaming`. -/
inductive Ev where
  | text (s : Str)
  | toolCall (name : Str) (input : Json)
  | toolResult (name : Str) (result : Str)
  | visualization (payload : Json)
  | done (model_used : Str) (iterations : Nat)
deriving DecidableEq

/-- Environment of one agent run: the provider behavior per call index and
the tool-handler behavior. -/
structure AgentEnv where
  provider : Nat → PResult
  handlers : tool_handlers.HandlerEnv

/-- Events emitted while classifying response blocks, in block order:
text blocks yield text events, tool-use blocks yield tool-call events,
thinking blocks yield nothing. -/
def eventsOfBlocks : List RBlock → List Ev
  | [] => []
  | .thinking _ _ :: tl => eventsOfBlocks tl
  | .text t :: tl => Ev.text t :: eventsOfBlocks tl
  | .toolUse _ name input :: tl => Ev.toolCall name input :: eventsOfBlocks tl

/-- The assistant-message content recorded for a response. -/
def contentOfBlocks : List RBlock → List Block
  | [] => []
  | .thinking t sig :: tl => Block.thinking t sig :: contentOfBlocks tl
  | .text t :: tl => Block.text t :: contentOfBlocks tl
  | .toolUse id name input :: tl => Block.toolUse id name input :: contentOfBlocks tl

/-- The tool-use blocks collected from a response, in order. -/
def toolUseTriples : List RBlock → List (Str × Str × Json)
  | [] => []
  | .toolUse id name input :: tl => (id, name, input) :: toolUseTriples tl
  | _ :: tl => toolUseTriples tl

/-- Visualization event emitted when a tool result parses as an object
with a `pdb_contents` field. -/
def vizEvents (result_str : Str) : List Ev :=
  match loads result_str with
  | some (.obj o) =>
    if o.hasKey (pystr "pdb_contents") then [Ev.visualization (Json.obj o)] else []
  | _ => []

/-- Executes the collected tool calls in order: each yields a tool-result
event (on the compressed payload), possibly a visualization event, and a
tool-result block for the bundled user message. -/
def execTools (henv : tool_handlers.HandlerEnv) :
    List (Str × Str × Json) → List Ev × List Block
  | [] => ([], [])
  | (id, name, input) :: tl =>
    let result_str := compress_tool_result (tool_handlers.handle_tool_call henv name input)
    let rest := execTools henv tl
    (Ev.toolResult name result_str :: (vizEvents result_str ++ rest.1),
     Block.toolResult id result_str :: rest.2)

/-- Embedding of the `has_tool_use` test: the second-to-last message has
block content containing a tool-use block. -/
def hasToolUseInLast2 (messages : List Msg) : Bool :=
  decide (2 ≤ messages.length) &&
    (match messages.get? (messages.length - 2) with
     | some m =>
       match m.content with
       | .blocks bs => bs.any fun b =>
         match b with
         | .toolUse _ _ _ => true
         | _ => false
       | _ => false
     | none => false)

/-- The agent loop of `run_agent_streaming`: one recursive step per
iteration, with `fuel` the remaining iterations and `iter` the current
iteration index.  Returns the events emitted inside the loop, the last
model used, and the iteration index at exit. -/
def agentLoop (env : AgentEnv) (userMsg : Str) :
    Nat → Nat → List Msg → Str → List Ev × Str × Nat
  | 0, iter, _, lastModel => ([Ev.text LIMIT_MSG], lastModel, iter - 1)
  | fuel + 1, iter, messages, _ =>
    let htu := decide (0 < iter) && hasToolUseInLast2 messages
    let model := model_router.select_model userMsg iter htu
    let _api_messages := maybe_summarize_history (prune_thinking_blocks messages)
    match env.provider iter with
    | .apiError msg =>
      ([Ev.text (pystr "I encountered an API error: " ++ msg
        ++ pystr ". Please try again.")], model, iter)
    | .response content stop =>
      let evs1 := eventsOfBlocks content
      let msgs1 := messages ++ [⟨pystr "assistant", .blocks (contentOfBlocks content)⟩]
      if stop = pystr "end_turn" then (evs1, model, iter)
      else if stop = pystr "tool_use" ∧ toolUseTriples content ≠ [] then
        let exec := execTools env.handlers (toolUseTriples content)
        let msgs2 := msgs1 ++ [⟨pystr "user", .blocks exec.2⟩]
        let rest := agentLoop env userMsg fuel (iter + 1) msgs2 model
        (evs1 ++ exec.1 ++ rest.1, rest.2.1, rest.2.2)
      else (evs1, model, iter)

/-- Embedding of `run_agent_streaming`: appends the user message, runs the
loop, and emits the terminal done event. -/
def run_agent_streaming (env : AgentEnv) (userMsg : Str) (messages0 : List Msg) :
    List Ev :=
  let messages := messages0 ++ [⟨pystr "user", .str userMsg⟩]
  let r := agentLoop env userMsg MAX_AGENT_ITERATIONS 0 messages (pystr "")
  r.1 ++ [Ev.done r.2.1 (min (r.2.2 + 1) MAX_AGENT_ITERATIONS)]

/-- Is the event a done event? -/
def isDoneEv : Ev → Bool
  | .done _ _ => true
  | _ => false

theorem eventsOfBlocks_no_done (content : List RBlock) :
    (eventsOfBlocks content).countP isDoneEv = 0 := by
  induction content with
  | nil => rfl
  | cons b tl ih => cases b <;> simp [eventsOfBlocks, List.countP_cons, ih, isDoneEv]

theorem execTools_no_done (henv : tool_handlers.HandlerEnv)
    (tus : List (Str × Str × Json)) :
    (execTools henv tus).1.countP isDoneEv = 0 := by
  induction tus with
  | nil => rfl
  | cons t tl ih =>
    obtain ⟨id, name, input⟩ := t
    simp only [execTools, List.countP_cons, List.countP_append, ih]
    have hviz : ∀ s, (vizEvents s).countP isDoneEv = 0 := by
      intro s
      unfold vizEvents
      cases loads s with
      | none => rfl
      | some j =>
        cases j <;> simp [isDoneEv]
    simp [hviz, isDoneEv]

theorem agentLoop_no_done (env : AgentEnv) (userMsg : Str) :
    ∀ (fuel iter : Nat) (messages : List Msg) (lastModel : Str),
      (agentLoop env userMsg fuel iter messages lastModel).1.countP isDoneEv = 0 := by
  intro fuel
  induction fuel with
  | zero => intro iter messages lastModel; simp [agentLoop, isDoneEv]
  | succ n ih =>
    intro iter messages lastModel
    rw [agentLoop]
    cases env.provider iter with
    | apiError msg => simp [isDoneEv]
    | response content stop =>
      simp only
      split
      · exact eventsOfBlocks_no_done content
      · split
        · simp [List.countP_append, eventsOfBlocks_no_done, execTools_no_done, ih]
        · exact eventsOfBlocks_no_done content

end claude_agent

namespace claude_agent

open context_manager

/-- Environment of the C9 scenario: the provider returns one tool call and
then ends the turn. -/
def scenarioEnv : AgentEnv :=
  ⟨fun i => if i = 0 then
      .response [RBlock.toolUse (pystr "t1") (pystr "x_tool") Json.null] (pystr "tool_use")
    else .response [] (pystr "end_turn"),
   fun _ _ => .ok (pystr "unused")⟩

/-- C9: every run of `run_agent_streaming` emits exactly one done event
and it is the last event, for every provider behavior, handler behavior,
user message and prior log — covering normal end-of-turn completion,
provider failure (where an apologetic text event precedes it inside the
loop) and the iteration-limit stop; and in the scenario where the provider
returns one tool call and then ends the turn, the emitted sequence is
tool-call, tool-result, done. -/
theorem done_event_spec :
    (∀ (env : AgentEnv) (userMsg : Str) (messages0 : List Msg),
      (run_agent_streaming env userMsg messages0).countP isDoneEv = 1
      ∧ ∃ m n, (run_agent_streaming env userMsg messages0).getLast? = some (Ev.done m n))
    ∧ run_agent_streaming scenarioEnv (pystr "go") []
      = [Ev.toolCall (pystr "x_tool") Json.null,
         Ev.toolResult (pystr "x_tool")
           (tool_handlers.errorPayload (pystr "Unknown tool: x_tool")),
         Ev.done model_router.SONNET 2] := by
  constructor
  · intro env userMsg messages0
    unfold run_agent_streaming
    constructor
    · simp [List.countP_append, agentLoop_no_done, isDoneEv]
    · exact ⟨_, _, List.getLast?_concat _⟩
  · decide

end claude_agent

namespace rfdiffusion_runner

open job_manager
open context_manager

/-- Case-insensitive literal prefix match; `pre` is given in lower case.
Returns the rest of the input after the literal. -/
def ciPrefix (pre l : Str) : Option Str :=
  if (l.take pre.length).map Char.toLower = pre ∧ pre.length ≤ l.length then
    some (l.drop pre.length)
  else none

/-- Match of the progress pattern `Timestep\s+(\d+)\s*/\s*(\d+)` anchored
at the start of `l` (case-insensitive), returning the two captured
numbers. -/
def matchTimestepAt (l : Str) : Option (Nat × Nat) :=
  match ciPrefix (pystr "timestep") l with
  | none => none
  | some r1 =>
    if (r1.takeWhile isPyWs).isEmpty then none
    else
      match parseNatTok (r1.dropWhile isPyWs) with
      | none => none
      | some (cur, r3) =>
        match r3.dropWhile isPyWs with
        | '/' :: r5 =>
          match parseNatTok (r5.dropWhile isPyWs) with
          | none => none
          | some (tot, _) => some (cur, tot)
        | _ => none

/-- Embedding of `timestep_pattern.search(line)`: the leftmost match. -/
def timestepSearch : Str → Option (Nat × Nat)
  | [] => none
  | c :: cs =>
    match matchTimestepAt (c :: cs) with
    | some p => some p
    | none => timestepSearch cs

/-- Round half to even, as Python's `round` does on exact values. -/
def roundHalfEven (q : ℚ) : ℤ :=
  let f := ⌊q⌋
  if q - f < 1/2 then f
  else if (1:ℚ)/2 < q - f then f + 1
  else if f % 2 = 0 then f else f + 1

/-- Embedding of `round(x, 3)` on the exact-rational model. -/
def round3 (q : ℚ) : ℚ := (roundHalfEven (q * 1000) : ℚ) / 1000

/-- One `update_status` call observed by the Job State Manager. -/
structure Upd where
  status : Str
  progress : Option ℚ
  message : Option Str
deriving DecidableEq

/-- Behavior of the external process in one run: the spawn raises, the
read phase times out after some lines, the wait phase times out, or the
process exits with a code after emitting lines, leaving a directory
listing of artifacts. -/
inductive ProcBehavior where
  | spawnFail (excMsg : Str)
  | timeoutInRead (linesRead : List Str)
  | timeoutInWait (lines : List Str)
  | exits (lines : List Str) (code : Int) (dirListing : List Str)

/-- Environment of one run: process behavior, the file-registry
collaborator (which may raise), and the configured timeout. -/
structure RunEnv where
  behavior : ProcBehavior
  register : Str → Except Str Str
  timeoutSecs : Nat

/-- Result of a run: the registry afterwards, the trace of successful
`update_status` calls, and the exception propagated out of the runner, if
any. -/
abbrev RunResult := JobManager × List Upd × Option PyErr

/-- Python `str(exc)` for the manager's exceptions (the detail/message). -/
def errToStr : PyErr → Str
  | .http _ d => d
  | .valueError m => m

/-- An `update_status` call together with trace recording. -/
def pushUpd (jm : JobManager) (tr : List Upd) (jobId status : Str)
    (progress : Option ℚ) (message : Option Str) (now : Str) :
    (JobManager × List Upd) × Option PyErr :=
  match update_status jm jobId status progress message now with
  | (jm2, none) => ((jm2, tr ++ [⟨status, progress, message⟩]), none)
  | (jm2, some e) => ((jm2, tr), some e)

/-- The progress message for one matched line. -/
def timestepMsg (cur tot : Nat) : Str :=
  pystr "Timestep " ++ printNat cur ++ '/' :: printNat tot

/-- Trace contribution of one output line. -/
def lineTrace (line : Str) : List Upd :=
  match timestepSearch line with
  | some (cur, tot) =>
    if 0 < tot then
      [⟨pystr "running", some (round3 ((cur : ℚ) / (tot : ℚ))),
        some (timestepMsg cur tot)⟩]
    else []
  | none => []

/-- Processing of one output line: a matched line with positive total
pushes a running update with the rounded fraction. -/
def lineUpds (jobId line : Str) (jm : JobManager) (tr : List Upd) (now : Str) :
    (JobManager × List Upd) × Option PyErr :=
  match timestepSearch line with
  | none => ((jm, tr), none)
  | some (cur, tot) =>
    if 0 < tot then
      pushUpd jm tr jobId (pystr "running")
        (some (round3 ((cur : ℚ) / (tot : ℚ)))) (some (timestepMsg cur tot)) now
    else ((jm, tr), none)

/-- The `_read_output` progress loop over the captured lines; an exception
from `update_status` aborts the read and propagates. -/
def processLines (jobId now : Str) : List Str → JobManager → List Upd →
    (JobManager × List Upd) × Option PyErr
  | [], jm, tr => ((jm, tr), none)
  | line :: rest, jm, tr =>
    match lineUpds jobId line jm tr now with
    | (st, none) => processLines jobId now rest st.1 st.2
    | (st, some e) => (st, some e)

/-- Does a file name match the glob `design_*.pdb`? -/
def matchesDesignPdb (name : Str) : Bool :=
  (pystr "design_").isPrefixOf name && strEndsWith name (pystr ".pdb")
    && decide (11 ≤ name.length)

/-- Lexicographic comparison of strings by code point (Python `sorted`). -/
def strLe : Str → Str → Bool
  | [], _ => true
  | _ :: _, [] => false
  | c :: cs, d :: ds =>
    if c.toNat < d.toNat then true
    else if d.toNat < c.toNat then false
    else strLe cs ds

def insertSorted (x : Str) : List Str → List Str
  | [] => [x]
  | y :: tl => if strLe x y then x :: y :: tl else y :: insertSorted x tl

/-- Stable sort of file names (Python `sorted`). -/
def sortStrs : List Str → List Str
  | [] => []
  | x :: tl => insertSorted x (sortStrs tl)

/-- Registers each artifact in order with the file collaborator; the first
exception aborts the loop. -/
def registerAll (reg : Str → Except Str Str) : List Str → Except Str (List Str)
  | [] => .ok []
  | a :: tl =>
    match reg a with
    | .error e => .error e
    | .ok fid => (registerAll reg tl).map fun ids => fid :: ids

/-- Python `"\n".join`. -/
def joinNL : List Str → Str
  | [] => []
  | [x] => x
  | x :: y :: tl => x ++ '\n' :: joinNL (y :: tl)

/-- Python `str.splitlines` restricted to `\n` separators. -/
def pySplitlines : Str → List Str
  | [] => []
  | c :: cs =>
    let first := (c :: cs).takeWhile (fun d => d ≠ '\n')
    match h : (c :: cs).dropWhile (fun d => d ≠ '\n') with
    | [] => [first]
    | _ :: rest => first :: pySplitlines rest
termination_by s => s.length
decreasing_by
  have h2 : (List.dropWhile (fun d => d ≠ '\n') (c :: cs)).length ≤ (c :: cs).length :=
    (List.dropWhile_sublist _).length_le
  rw [h] at h2
  simp only [List.length_cons] at h2 ⊢
  omega

/-- The last ~10 lines of the captured output, as joined for the failure
message. -/
def tailLines (lines : List Str) : Str :=
  let ls := pySplitlines (joinNL lines)
  joinNL (ls.drop (ls.length - 10))

def startedMsg : Str := pystr "RFdiffusion started"

def timeoutMsg (n : Nat) : Str := pystr "Timed out after " ++ printNat n ++ ['s']

def failExitMsg (code : Int) (lines : List Str) : Str :=
  pystr "RFdiffusion exited with code " ++ printInt code ++ '.' :: '\n' :: tailLines lines

def completedMsg (n : Nat) : Str :=
  pystr "Completed — " ++ printNat n ++ pystr " design(s) generated"

def unexpectedMsg (excMsg : Str) : Str := pystr "Unexpected error: " ++ excMsg

/-- The generic `except Exception` handler: marks the job failed; a
further exception from that update propagates. -/
def handleExc (jobId : Str) (jm : JobManager) (tr : List Upd) (now excMsg : Str) :
    RunResult :=
  match pushUpd jm tr jobId (pystr "failed") none (some (unexpectedMsg excMsg)) now with
  | (st, none) => (st.1, st.2, none)
  | (st, some e) => (st.1, st.2, some e)

/-- The `except asyncio.TimeoutError` handler: marks the job failed with
the timeout message and kills the process. -/
def handleTimeout (jobId : Str) (jm : JobManager) (tr : List Upd) (now : Str)
    (timeoutSecs : Nat) : RunResult :=
  match pushUpd jm tr jobId (pystr "failed") none (some (timeoutMsg timeoutSecs)) now with
  | (st, none) => (st.1, st.2, none)
  | (st, some e) => (st.1, st.2, some e)

/-- Embedding of `run_rfdiffusion`: the initial running update happens
before the `try` block (an exception there propagates); every path inside
the `try` ends in exactly one terminal update, with all exceptions
converted to a failed state. -/
def run_rfdiffusion (jobId : Str) (env : RunEnv) (jm0 : JobManager) (now : Str) :
    RunResult :=
  match pushUpd jm0 [] jobId (pystr "running") (some 0) (some startedMsg) now with
  | (st, some e) => (st.1, st.2, some e)
  | ((jm1, tr1), none) =>
    match env.behavior with
    | .spawnFail excMsg => handleExc jobId jm1 tr1 now excMsg
    | .timeoutInRead linesRead =>
      match processLines jobId now linesRead jm1 tr1 with
      | (st, none) => handleTimeout jobId st.1 st.2 now env.timeoutSecs
      | (st, some e) => handleExc jobId st.1 st.2 now (errToStr e)
    | .timeoutInWait lines =>
      match processLines jobId now lines jm1 tr1 with
      | (st, none) => handleTimeout jobId st.1 st.2 now env.timeoutSecs
      | (st, some e) => handleExc jobId st.1 st.2 now (errToStr e)
    | .exits lines code dirListing =>
      match processLines jobId now lines jm1 tr1 with
      | (st, some e) => handleExc jobId st.1 st.2 now (errToStr e)
      | ((jm2, tr2), none) =>
        if code ≠ 0 then
          match pushUpd jm2 tr2 jobId (pystr "failed") none
              (some (failExitMsg code lines)) now with
          | (st, none) => (st.1, st.2, none)
          | (st, some e) => handleExc jobId st.1 st.2 now (errToStr e)
        else
          match registerAll env.register (sortStrs (dirListing.filter matchesDesignPdb)) with
          | .error e => handleExc jobId jm2 tr2 now e
          | .ok ids =>
            match set_results jm2 jobId ids with
            | (jm3, some e) => handleExc jobId jm3 tr2 now (errToStr e)
            | (jm3, none) =>
              match pushUpd jm3 tr2 jobId (pystr "completed") (some 1)
                  (some (completedMsg ids.length)) now with
              | (st, none) => (st.1, st.2, none)
              | (st, some e) => handleExc jobId st.1 st.2 now (errToStr e)

end rfdiffusion_runner

namespace job_manager

theorem appliedUpd_status (job : JobRec) (status : Str) (p : Option ℚ)
    (m : Option Str) (now : Str) : (appliedUpd job status p m now).status = status := by
  unfold appliedUpd
  cases p <;> cases m <;> by_cases ht : status ∈ TERMINAL_STATES <;> simp [ht]

theorem appliedUpd_output (job : JobRec) (status : Str) (p : Option ℚ)
    (m : Option Str) (now : Str) :
    (appliedUpd job status p m now).output_pdb_ids = job.output_pdb_ids := by
  unfold appliedUpd
  cases p <;> cases m <;> by_cases ht : status ∈ TERMINAL_STATES <;> simp [ht]

theorem appliedUpd_progress_some (job : JobRec) (status : Str) (q : ℚ)
    (m : Option Str) (now : Str) :
    (appliedUpd job status (some q) m now).progress = some q := by
  unfold appliedUpd
  cases m <;> by_cases ht : status ∈ TERMINAL_STATES <;> simp [ht]

theorem update_status_found (jm : JobManager) (jobId status : Str)
    (p : Option ℚ) (m : Option Str) (now : Str) (rec : JobRec)
    (hfind : findJob jm jobId = some rec) (hvalid : status ∈ VALID_STATES) :
    update_status jm jobId status p m now
      = (setJob jm jobId (appliedUpd rec status p m now), none) := by
  simp [update_status, hfind, hvalid]

theorem set_results_found (jm : JobManager) (jobId : Str) (ids : List Str)
    (rec : JobRec) (hfind : findJob jm jobId = some rec) :
    set_results jm jobId ids
      = (setJob jm jobId { rec with output_pdb_ids := ids }, none) := by
  simp [set_results, hfind]

end job_manager

namespace rfdiffusion_runner

open job_manager
open context_manager

theorem pushUpd_found (jm : JobManager) (tr : List Upd) (jobId status : Str)
    (p : Option ℚ) (m : Option Str) (now : Str) (rec : JobRec)
    (hfind : findJob jm jobId = some rec) (hvalid : status ∈ VALID_STATES) :
    pushUpd jm tr jobId status p m now
      = ((setJob jm jobId (appliedUpd rec status p m now), tr ++ [⟨status, p, m⟩]), none) := by
  simp [pushUpd, update_status_found jm jobId status p m now rec hfind hvalid]

/-- Trace contribution of a list of output lines. -/
def linesTrace : List Str → List Upd
  | [] => []
  | l :: tl => lineTrace l ++ linesTrace tl

theorem processLines_spec (jobId now : Str) :
    ∀ (lines : List Str) (jm : JobManager) (tr : List Upd) (rec : JobRec),
      findJob jm jobId = some rec →
      ∃ jm2 rec2, processLines jobId now lines jm tr = ((jm2, tr ++ linesTrace lines), none)
        ∧ findJob jm2 jobId = some rec2 := by
  intro lines
  induction lines with
  | nil =>
    intro jm tr rec hfind
    exact ⟨jm, rec, by simp [processLines, linesTrace], hfind⟩
  | cons line tl ih =>
    intro jm tr rec hfind
    rw [processLines]
    unfold lineUpds
    cases hts : timestepSearch line with
    | none =>
      obtain ⟨jm2, rec2, heq, hfind2⟩ := ih jm tr rec hfind
      refine ⟨jm2, rec2, ?_, hfind2⟩
      simp only [hts]
      rw [heq]
      simp [linesTrace, lineTrace, hts]
    | some p =>
      obtain ⟨cur, tot⟩ := p
      simp only [hts]
      by_cases htot : 0 < tot
      · rw [if_pos htot, pushUpd_found jm tr jobId _ _ _ now rec hfind (by decide)]
        simp only
        obtain ⟨jm2, rec2, heq, hfind2⟩ :=
          ih (setJob jm jobId (appliedUpd rec (pystr "running")
            (some (round3 ((cur : ℚ) / (tot : ℚ)))) (some (timestepMsg cur tot)) now))
            (tr ++ [⟨pystr "running", some (round3 ((cur : ℚ) / (tot : ℚ))),
              some (timestepMsg cur tot)⟩])
            _ (findJob_setJob_self jm jobId _ rec hfind)
        refine ⟨jm2, rec2, ?_, hfind2⟩
        rw [heq]
        simp [linesTrace, lineTrace, hts, if_pos htot]
      · simp only [if_neg htot]
        obtain ⟨jm2, rec2, heq, hfind2⟩ := ih jm tr rec hfind
        refine ⟨jm2, rec2, ?_, hfind2⟩
        rw [heq]
        simp [linesTrace, lineTrace, hts, if_neg htot]

/-- Is the update a transition into a terminal state? -/
def isTerminalUpd (u : Upd) : Bool :=
  u.status = pystr "completed" || u.status = pystr "failed" || u.status = pystr "cancelled"

theorem lineTrace_no_terminal (line : Str) :
    (lineTrace line).countP isTerminalUpd = 0 := by
  unfold lineTrace
  cases timestepSearch line with
  | none => rfl
  | some p =>
    obtain ⟨cur, tot⟩ := p
    by_cases htot : 0 < tot
    · simp [htot, isTerminalUpd]
      decide
    · simp [htot]

theorem linesTrace_no_terminal (lines : List Str) :
    (linesTrace lines).countP isTerminalUpd = 0 := by
  induction lines with
  | nil => rfl
  | cons l tl ih => simp [linesTrace, List.countP_append, lineTrace_no_terminal, ih]

theorem trace_one_terminal (pre : List Upd) (u : Upd)
    (hpre : pre.countP isTerminalUpd = 0) (hu : isTerminalUpd u = true) :
    (pre ++ [u]).countP isTerminalUpd = 1 ∧ (pre ++ [u]).getLast? = some u := by
  constructor
  · simp [List.countP_append, hpre, hu]
  · exact List.getLast?_concat _

theorem handleExc_found (jobId : Str) (jm : JobManager) (tr : List Upd)
    (now msg : Str) (rec : JobRec) (hfind : findJob jm jobId = some rec) :
    handleExc jobId jm tr now msg
      = (setJob jm jobId (appliedUpd rec (pystr "failed") none
            (some (unexpectedMsg msg)) now),
         tr ++ [⟨pystr "failed", none, some (unexpectedMsg msg)⟩], none) := by
  unfold handleExc
  rw [pushUpd_found jm tr jobId _ _ _ now rec hfind (by decide)]

theorem handleTimeout_found (jobId : Str) (jm : JobManager) (tr : List Upd)
    (now : Str) (secs : Nat) (rec : JobRec) (hfind : findJob jm jobId = some rec) :
    handleTimeout jobId jm tr now secs
      = (setJob jm jobId (appliedUpd rec (pystr "failed") none
            (some (timeoutMsg secs)) now),
         tr ++ [⟨pystr "failed", none, some (timeoutMsg secs)⟩], none) := by
  unfold handleTimeout
  rw [pushUpd_found jm tr jobId _ _ _ now rec hfind (by decide)]

/-- Conclusion of the C1 claim for one run result: no exception escapes,
exactly one terminal transition appears in the trace, it is the last
update, its state is completed or failed, and the job record is left in
that terminal state (in particular not in running). -/
def Concl (res : RunResult) (jobId : Str) : Prop :=
  res.2.2 = none
  ∧ res.2.1.countP isTerminalUpd = 1
  ∧ ∃ u, res.2.1.getLast? = some u
      ∧ (u.status = pystr "completed" ∨ u.status = pystr "failed")
      ∧ (findJob res.1 jobId).map JobRec.status = some u.status

theorem conclude (jmX : JobManager) (jobId now : Str) (recX : JobRec)
    (st : Str) (p : Option ℚ) (m : Option Str) (pre : List Upd)
    (hfindX : findJob jmX jobId = some recX)
    (hst : st = pystr "completed" ∨ st = pystr "failed")
    (hpre : pre.countP isTerminalUpd = 0) :
    Concl (setJob jmX jobId (appliedUpd recX st p m now), pre ++ [⟨st, p, m⟩], none) jobId := by
  have hterm : isTerminalUpd ⟨st, p, m⟩ = true := by
    rcases hst with h | h <;> subst h <;> simp +decide [isTerminalUpd]
  obtain ⟨hc, hl⟩ := trace_one_terminal pre ⟨st, p, m⟩ hpre hterm
  refine ⟨rfl, hc, ⟨st, p, m⟩, hl, hst, ?_⟩
  rw [findJob_setJob_self jmX jobId _ recX hfindX]
  simp [appliedUpd_status]

end rfdiffusion_runner

namespace rfdiffusion_runner

open job_manager
open context_manager

/-- C1: for every job registered in the manager and every process
behavior — spawn failure, timeout during read or wait, normal exit with
any code, and any file-registry exception — the runner propagates no
exception, performs exactly one transition into a terminal state
(completed or failed), that transition is the last update of the run, and
the job record ends in that terminal state, never in running. -/
theorem runner_single_terminal :
    ∀ (env : RunEnv) (jm0 : JobManager) (jobId now : Str) (rec : JobRec),
      findJob jm0 jobId = some rec →
      Concl (run_rfdiffusion jobId env jm0 now) jobId := by
  intro env jm0 jobId now rec hfind
  rw [run_rfdiffusion,
    pushUpd_found jm0 [] jobId (pystr "running") (some 0) (some startedMsg) now rec hfind
      (by decide)]
  simp only [List.nil_append]
  have hfind1 := findJob_setJob_self jm0 jobId
    (appliedUpd rec (pystr "running") (some 0) (some startedMsg) now) rec hfind
  set jm1 := setJob jm0 jobId (appliedUpd rec (pystr "running") (some 0) (some startedMsg) now)
    with hjm1
  set rec1 := appliedUpd rec (pystr "running") (some 0) (some startedMsg) now with hrec1
  have hrun0 : ([⟨pystr "running", some 0, some startedMsg⟩] : List Upd).countP isTerminalUpd
      = 0 := by decide
  split
  · -- spawnFail
    rename_i msg heq
    rw [handleExc_found jobId jm1 _ now msg rec1 hfind1]
    exact conclude jm1 jobId now rec1 _ _ _ _ hfind1 (Or.inr rfl) hrun0
  · -- timeoutInRead
    rename_i linesRead heq
    obtain ⟨jm2, rec2, heq2, hfind2⟩ :=
      processLines_spec jobId now linesRead jm1
        [⟨pystr "running", some 0, some startedMsg⟩] rec1 hfind1
    rw [heq2]
    show Concl (handleTimeout jobId jm2
      ([⟨pystr "running", some 0, some startedMsg⟩] ++ linesTrace linesRead)
      now env.timeoutSecs) jobId
    rw [handleTimeout_found jobId jm2 _ now env.timeoutSecs rec2 hfind2]
    refine conclude jm2 jobId now rec2 _ _ _ _ hfind2 (Or.inr rfl) ?_
    rw [List.countP_append, hrun0, linesTrace_no_terminal]
  · -- timeoutInWait
    rename_i lines heq
    obtain ⟨jm2, rec2, heq2, hfind2⟩ :=
      processLines_spec jobId now lines jm1
        [⟨pystr "running", some 0, some startedMsg⟩] rec1 hfind1
    rw [heq2]
    show Concl (handleTimeout jobId jm2
      ([⟨pystr "running", some 0, some startedMsg⟩] ++ linesTrace lines)
      now env.timeoutSecs) jobId
    rw [handleTimeout_found jobId jm2 _ now env.timeoutSecs rec2 hfind2]
    refine conclude jm2 jobId now rec2 _ _ _ _ hfind2 (Or.inr rfl) ?_
    rw [List.countP_append, hrun0, linesTrace_no_terminal]
  · -- exits
    rename_i lines code arts heq
    obtain ⟨jm2, rec2, heq2, hfind2⟩ :=
      processLines_spec jobId now lines jm1
        [⟨pystr "running", some 0, some startedMsg⟩] rec1 hfind1
    rw [heq2]
    have hpre2 : (([⟨pystr "running", some 0, some startedMsg⟩] : List Upd)
        ++ linesTrace lines).countP isTerminalUpd = 0 := by
      rw [List.countP_append, hrun0, linesTrace_no_terminal]
    show Concl (if code ≠ 0 then _ else _) jobId
    by_cases hcode : code ≠ 0
    · rw [if_pos hcode,
        pushUpd_found jm2 _ jobId (pystr "failed") none (some (failExitMsg code lines)) now
          rec2 hfind2 (by decide)]
      exact conclude jm2 jobId now rec2 _ _ _ _ hfind2 (Or.inr rfl) hpre2
    · rw [if_neg hcode]
      cases hreg : registerAll env.register (sortStrs (arts.filter matchesDesignPdb)) with
      | error e =>
        show Concl (handleExc jobId jm2
          ([⟨pystr "running", some 0, some startedMsg⟩] ++ linesTrace lines) now e) jobId
        rw [handleExc_found jobId jm2 _ now e rec2 hfind2]
        exact conclude jm2 jobId now rec2 _ _ _ _ hfind2 (Or.inr rfl) hpre2
      | ok ids =>
        have hfind3 := findJob_setJob_self jm2 jobId
          { rec2 with output_pdb_ids := ids } rec2 hfind2
        show Concl (match set_results jm2 jobId ids with
          | (jm3, some e) => handleExc jobId jm3
              ([⟨pystr "running", some 0, some startedMsg⟩] ++ linesTrace lines) now (errToStr e)
          | (jm3, none) =>
            match pushUpd jm3 ([⟨pystr "running", some 0, some startedMsg⟩] ++ linesTrace lines)
                jobId (pystr "completed") (some 1) (some (completedMsg ids.length)) now with
            | (st, none) => (st.1, st.2, none)
            | (st, some e) => handleExc jobId st.1 st.2 now (errToStr e)) jobId
        rw [set_results_found jm2 jobId ids rec2 hfind2]
        show Concl (match pushUpd (setJob jm2 jobId { rec2 with output_pdb_ids := ids })
            ([⟨pystr "running", some 0, some startedMsg⟩] ++ linesTrace lines)
            jobId (pystr "completed") (some 1) (some (completedMsg ids.length)) now with
          | (st, none) => (st.1, st.2, none)
          | (st, some e) => handleExc jobId st.1 st.2 now (errToStr e)) jobId
        rw [pushUpd_found _ _ jobId _ _ _ now _ hfind3 (by decide)]
        exact conclude _ jobId now _ _ _ _ _ hfind3 (Or.inl rfl) hpre2

end rfdiffusion_runner

namespace rfdiffusion_runner

open job_manager
open context_manager

theorem registerAll_map (f : Str → Str) :
    ∀ l : List Str, registerAll (fun s => .ok (f s)) l = .ok (l.map f) := by
  intro l
  induction l with
  | nil => rfl
  | cons a tl ih => simp [registerAll, ih, Except.map]

theorem exits0_branch_eq (jobId now : Str) (jm2 : JobManager) (rec2 : JobRec)
    (tr : List Upd) (ids : List Str) (hfind2 : findJob jm2 jobId = some rec2) :
    (match set_results jm2 jobId ids with
      | (jm3, some e) => handleExc jobId jm3 tr now (errToStr e)
      | (jm3, none) =>
        match pushUpd jm3 tr jobId (pystr "completed") (some 1)
            (some (completedMsg ids.length)) now with
        | (st, none) => (st.1, st.2, none)
        | (st, some e) => handleExc jobId st.1 st.2 now (errToStr e))
    = (setJob (setJob jm2 jobId { rec2 with output_pdb_ids := ids }) jobId
         (appliedUpd { rec2 with output_pdb_ids := ids } (pystr "completed") (some 1)
           (some (completedMsg ids.length)) now),
       tr ++ [⟨pystr "completed", some 1, some (completedMsg ids.length)⟩], none) := by
  rw [set_results_found jm2 jobId ids rec2 hfind2]
  show (match pushUpd (setJob jm2 jobId { rec2 with output_pdb_ids := ids }) tr jobId
      (pystr "completed") (some 1) (some (completedMsg ids.length)) now with
    | (st, none) => (st.1, st.2, none)
    | (st, some e) => handleExc jobId st.1 st.2 now (errToStr e)) = _
  rw [pushUpd_found _ _ jobId _ _ _ now _
    (findJob_setJob_self jm2 jobId _ rec2 hfind2) (by decide)]

theorem runner_exits0_spec :
    ∀ (env : RunEnv) (jm0 : JobManager) (jobId now : Str) (rec : JobRec)
      (lines arts : List Str) (f : Str → Str),
      env.behavior = .exits lines 0 arts →
      env.register = (fun s => .ok (f s)) →
      findJob jm0 jobId = some rec →
      ∃ jm3 rec2,
        run_rfdiffusion jobId env jm0 now
          = (jm3,
             ⟨pystr "running", some 0, some startedMsg⟩ :: linesTrace lines
               ++ [⟨pystr "completed", some 1,
                    some (completedMsg ((sortStrs (arts.filter matchesDesignPdb)).map f).length)⟩],
             none)
        ∧ findJob jm3 jobId = some rec2
        ∧ rec2.status = pystr "completed"
        ∧ rec2.progress = some 1
        ∧ rec2.output_pdb_ids = (sortStrs (arts.filter matchesDesignPdb)).map f := by
  intro env jm0 jobId now rec lines arts f hb hreg hfind
  rw [run_rfdiffusion,
    pushUpd_found jm0 [] jobId (pystr "running") (some 0) (some startedMsg) now rec hfind
      (by decide)]
  simp only [List.nil_append]
  have hfind1 := findJob_setJob_self jm0 jobId
    (appliedUpd rec (pystr "running") (some 0) (some startedMsg) now) rec hfind
  split
  · rename_i msg heq
    rw [hb] at heq
    exact absurd heq (by simp)
  · rename_i linesRead heq
    rw [hb] at heq
    exact absurd heq (by simp)
  · rename_i ls heq
    rw [hb] at heq
    exact absurd heq (by simp)
  · rename_i ls code arts2 heq
    rw [hb] at heq
    injection heq with h1 h2 h3
    subst h1
    subst h3
    subst h2
    obtain ⟨jm2, rec2, heq2, hfind2⟩ :=
      processLines_spec jobId now lines
        (setJob jm0 jobId (appliedUpd rec (pystr "running") (some 0) (some startedMsg) now))
        [⟨pystr "running", some 0, some startedMsg⟩]
        (appliedUpd rec (pystr "running") (some 0) (some startedMsg) now) hfind1
    rw [heq2]
    set ids := (sortStrs (arts.filter matchesDesignPdb)).map f with hids
    have hfind3 := findJob_setJob_self jm2 jobId
      { rec2 with output_pdb_ids := ids } rec2 hfind2
    refine ⟨setJob (setJob jm2 jobId { rec2 with output_pdb_ids := ids }) jobId
        (appliedUpd { rec2 with output_pdb_ids := ids } (pystr "completed") (some 1)
          (some (completedMsg ids.length)) now),
      appliedUpd { rec2 with output_pdb_ids := ids } (pystr "completed") (some 1)
        (some (completedMsg ids.length)) now,
      ?_,
      findJob_setJob_self _ jobId _ _ hfind3,
      appliedUpd_status _ _ _ _ _,
      appliedUpd_progress_some _ _ _ _ _,
      by rw [appliedUpd_output]⟩
    show (if (0 : Int) ≠ 0 then _ else _) = _
    rw [if_neg (by norm_num), hreg, registerAll_map f]
    exact exits0_branch_eq jobId now jm2 rec2 _ ids hfind2

theorem lineUpds_progress (jobId line : Str) (jm : JobManager) (tr : List Upd)
    (now : Str) (rec : JobRec) (cur tot : Nat)
    (hfind : findJob jm jobId = some rec)
    (hts : timestepSearch line = some (cur, tot)) (htot : 0 < tot) :
    lineUpds jobId line jm tr now
      = ((setJob jm jobId (appliedUpd rec (pystr "running")
            (some (round3 ((cur : ℚ) / (tot : ℚ)))) (some (timestepMsg cur tot)) now),
          tr ++ [⟨pystr "running", some (round3 ((cur : ℚ) / (tot : ℚ))),
            some (timestepMsg cur tot)⟩]), none)
    ∧ (appliedUpd rec (pystr "running") (some (round3 ((cur : ℚ) / (tot : ℚ))))
        (some (timestepMsg cur tot)) now).progress
      = some (round3 ((cur : ℚ) / (tot : ℚ))) := by
  constructor
  · unfold lineUpds
    rw [hts]
    show (if 0 < tot then _ else _) = _
    rw [if_pos htot, pushUpd_found jm tr jobId _ _ _ now rec hfind (by decide)]
  · exact appliedUpd_progress_some _ _ _ _ _

theorem round3_half : round3 ((25 : ℚ) / 50) = 1/2 := by
  norm_num [round3, roundHalfEven]

theorem ts_search_10 : timestepSearch (pystr "Timestep 10/50") = some (10, 50) := by decide

theorem ts_search_25 : timestepSearch (pystr "Timestep 25/50") = some (25, 50) := by decide

/-- Environment of the C6 end-to-end scenario: two progress lines, exit
code 0, two result artifacts listed out of order. -/
def scenRunEnv : RunEnv :=
  ⟨.exits [pystr "Timestep 10/50", pystr "Timestep 25/50"] 0
      [pystr "design_1.pdb", pystr "design_0.pdb"],
   fun s => .ok (pystr "id-" ++ s), 3600⟩

/-- Registry holding the scenario job. -/
def scenJm : JobManager :=
  create_job [] (pystr "j1") (pystr "in1") (pystr "A1-50") Json.null (pystr "t0")

/-- The scenario job record as created. -/
def scenRec : JobRec :=
  { job_id := pystr "j1", status := pystr "pending", progress := none,
    message := pystr "Job created", input_pdb_id := pystr "in1",
    contigs := pystr "A1-50", params := Json.null, output_pdb_ids := [],
    started_at := pystr "t0", completed_at := none }

theorem scen_sorted :
    (sortStrs (([pystr "design_1.pdb", pystr "design_0.pdb"]).filter matchesDesignPdb)).map
        (fun s => pystr "id-" ++ s)
      = [pystr "id-design_0.pdb", pystr "id-design_1.pdb"] := by decide

theorem scenario_c6 :
    (run_rfdiffusion (pystr "j1") scenRunEnv scenJm (pystr "t1")).2.2 = none
    ∧ (findJob (run_rfdiffusion (pystr "j1") scenRunEnv scenJm (pystr "t1")).1
        (pystr "j1")).map JobRec.status = some (pystr "completed")
    ∧ (findJob (run_rfdiffusion (pystr "j1") scenRunEnv scenJm (pystr "t1")).1
        (pystr "j1")).map JobRec.progress = some (some 1)
    ∧ (findJob (run_rfdiffusion (pystr "j1") scenRunEnv scenJm (pystr "t1")).1
        (pystr "j1")).map (fun r => r.output_pdb_ids.length) = some 2
    ∧ ∃ u ∈ (run_rfdiffusion (pystr "j1") scenRunEnv scenJm (pystr "t1")).2.1,
        u.progress = some (1/2 : ℚ) := by
  obtain ⟨jm3, rec2, hrun, hfind3, hst, hpr, hout⟩ :=
    runner_exits0_spec scenRunEnv scenJm (pystr "j1") (pystr "t1") scenRec
      [pystr "Timestep 10/50", pystr "Timestep 25/50"]
      [pystr "design_1.pdb", pystr "design_0.pdb"]
      (fun s => pystr "id-" ++ s) rfl rfl (by decide)
  rw [hrun]
  refine ⟨rfl, ?_, ?_, ?_, ?_⟩
  · show Option.map JobRec.status (findJob jm3 (pystr "j1")) = some (pystr "completed")
    rw [hfind3]
    simp [hst]
  · show Option.map JobRec.progress (findJob jm3 (pystr "j1")) = some (some 1)
    rw [hfind3]
    simp [hpr]
  · show Option.map (fun r => r.output_pdb_ids.length) (findJob jm3 (pystr "j1")) = some 2
    rw [hfind3]
    simp only [Option.map]
    rw [hout, scen_sorted]
    rfl
  · show ∃ u ∈ (⟨pystr "running", some 0, some startedMsg⟩ :: linesTrace
        [pystr "Timestep 10/50", pystr "Timestep 25/50"]
        ++ [⟨pystr "completed", some 1, some (completedMsg
          ((sortStrs (([pystr "design_1.pdb", pystr "design_0.pdb"]).filter
            matchesDesignPdb)).map (fun s => pystr "id-" ++ s)).length)⟩] : List Upd),
        u.progress = some (1/2 : ℚ)
    refine ⟨⟨pystr "running", some (round3 ((25 : ℚ) / 50)),
      some (timestepMsg 25 50)⟩, ?_, by rw [round3_half]⟩
    simp only [linesTrace, lineTrace, ts_search_10, ts_search_25]
    simp

/-- C6: on exit code 0 the runner registers every artifact matching
`design_*.pdb` in sorted order, stores the resulting ids via
`set_results`, and marks the job completed with progress 1.0; every
output line matching the progress pattern pushes a running update whose
progress is current/total rounded to 3 decimals; and in the concrete
scenario (lines `Timestep 10/50`, `Timestep 25/50`, exit 0, two
artifacts) the final record is completed with progress 1.0 and two output
ids, and an intermediate observed progress value is 0.5. -/
theorem runner_completion_spec :
    (∀ (env : RunEnv) (jm0 : JobManager) (jobId now : Str) (rec : JobRec)
      (lines arts : List Str) (f : Str → Str),
      env.behavior = .exits lines 0 arts →
      env.register = (fun s => .ok (f s)) →
      findJob jm0 jobId = some rec →
      ∃ jm3 rec2,
        run_rfdiffusion jobId env jm0 now
          = (jm3,
             ⟨pystr "running", some 0, some startedMsg⟩ :: linesTrace lines
               ++ [⟨pystr "completed", some 1,
                    some (completedMsg ((sortStrs (arts.filter matchesDesignPdb)).map f).length)⟩],
             none)
        ∧ findJob jm3 jobId = some rec2
        ∧ rec2.status = pystr "completed"
        ∧ rec2.progress = some 1
        ∧ rec2.output_pdb_ids = (sortStrs (arts.filter matchesDesignPdb)).map f)
    ∧ (∀ (jobId line : Str) (jm : JobManager) (tr : List Upd) (now : Str)
        (rec : JobRec) (cur tot : Nat),
        findJob jm jobId = some rec →
        timestepSearch line = some (cur, tot) → 0 < tot →
        lineUpds jobId line jm tr now
          = ((setJob jm jobId (appliedUpd rec (pystr "running")
                (some (round3 ((cur : ℚ) / (tot : ℚ)))) (some (timestepMsg cur tot)) now),
              tr ++ [⟨pystr "running", some (round3 ((cur : ℚ) / (tot : ℚ))),
                some (timestepMsg cur tot)⟩]), none))
    ∧ ((run_rfdiffusion (pystr "j1") scenRunEnv scenJm (pystr "t1")).2.2 = none
      ∧ (findJob (run_rfdiffusion (pystr "j1") scenRunEnv scenJm (pystr "t1")).1
          (pystr "j1")).map JobRec.status = some (pystr "completed")
      ∧ (findJob (run_rfdiffusion (pystr "j1") scenRunEnv scenJm (pystr "t1")).1
          (pystr "j1")).map JobRec.progress = some (some 1)
      ∧ (findJob (run_rfdiffusion (pystr "j1") scenRunEnv scenJm (pystr "t1")).1
          (pystr "j1")).map (fun r => r.output_pdb_ids.length) = some 2
      ∧ ∃ u ∈ (run_rfdiffusion (pystr "j1") scenRunEnv scenJm (pystr "t1")).2.1,
          u.progress = some (1/2 : ℚ)) :=
  ⟨runner_exits0_spec,
   fun jobId line jm tr now rec cur tot hfind hts htot =>
     (lineUpds_progress jobId line jm tr now rec cur tot hfind hts htot).1,
   scenario_c6⟩

end rfdiffusion_runner

namespace rfdiffusion_runner

open job_manager

/-- Witness for C1: the run conclusion at the concrete scenario
environment and registry. -/
theorem runner_single_terminal_witness :
    Concl (run_rfdiffusion (pystr "j1") scenRunEnv scenJm (pystr "t1")) (pystr "j1") :=
  runner_single_terminal scenRunEnv scenJm (pystr "j1") (pystr "t1") scenRec (by decide)

/-- Witness for C6: the completion spec applied at the concrete scenario
environment and registry. -/
theorem runner_completion_spec_witness :
    ∃ jm3 rec2,
      run_rfdiffusion (pystr "j1") scenRunEnv scenJm (pystr "t1")
        = (jm3,
           ⟨pystr "running", some 0, some startedMsg⟩
             :: linesTrace [pystr "Timestep 10/50", pystr "Timestep 25/50"]
             ++ [⟨pystr "completed", some 1,
                  some (completedMsg ((sortStrs (([pystr "design_1.pdb",
                    pystr "design_0.pdb"]).filter matchesDesignPdb)).map
                      (fun s => pystr "id-" ++ s)).length)⟩],
           none)
      ∧ findJob jm3 (pystr "j1") = some rec2
      ∧ rec2.status = pystr "completed"
      ∧ rec2.progress = some 1
      ∧ rec2.output_pdb_ids = (sortStrs (([pystr "design_1.pdb",
          pystr "design_0.pdb"]).filter matchesDesignPdb)).map (fun s => pystr "id-" ++ s) :=
  runner_completion_spec.1 scenRunEnv scenJm (pystr "j1") (pystr "t1") scenRec
    [pystr "Timestep 10/50", pystr "Timestep 25/50"]
    [pystr "design_1.pdb", pystr "design_0.pdb"]
    (fun s => pystr "id-" ++ s) rfl rfl (by decide)

end rfdiffusion_runner

/-! Roundtrip of the JSON serializer through the parser. -/

open context_manager

mutual
def jsizeV : Json → Nat
  | .null => 1
  | .bool _ => 1
  | .num _ => 1
  | .str _ => 1
  | .arr a => 1 + jsizeA a
  | .obj o => 1 + jsizeO o
def jsizeA : JArr → Nat
  | .nil => 0
  | .cons j tl => 1 + jsizeV j + jsizeA tl
def jsizeO : JObj → Nat
  | .nil => 0
  | .cons _ v tl => 1 + jsizeV v + jsizeO tl
end

/-- Rest-safety: a serialized number must not be followed directly by a
digit, or the parser would absorb it. -/
def numSafe (j : Json) (rest : Str) : Prop :=
  match j, rest with
  | .num _, c :: _ => isDigitCh c = false
  | _, _ => True

theorem eatLit_append (pre rest : Str) : eatLit pre (pre ++ rest) = some rest := by
  unfold eatLit
  rw [if_pos (by simp [List.isPrefixOf_iff_prefix]), List.drop_left]

theorem span_exact (p : Char → Bool) :
    ∀ (xs ys : Str), (∀ c ∈ xs, p c = true) →
      (match ys with | [] => True | y :: _ => p y = false) →
      (xs ++ ys).takeWhile p = xs ∧ (xs ++ ys).dropWhile p = ys := by
  intro xs
  induction xs with
  | nil =>
    intro ys _ hy
    cases ys with
    | nil => simp
    | cons y tl =>
      simp only [List.nil_append, List.takeWhile, List.dropWhile]
      rw [hy]
      simp
  | cons x tl ih =>
    intro ys hx hy
    have hpx := hx x (by simp)
    obtain ⟨h1, h2⟩ := ih ys (fun c hc => hx c (by simp [hc])) hy
    simp only [List.cons_append, List.takeWhile, List.dropWhile, hpx]
    simp [h1, h2]

theorem digitChar_digit (d : Nat) (hd : d < 10) : isDigitCh (digitChar d) = true := by
  interval_cases d <;> decide

theorem natDigitsAux_zero (fuel : Nat) (acc : Str) : natDigitsAux fuel 0 acc = acc := by
  cases fuel <;> simp [natDigitsAux]

theorem natDigitsAux_acc (fuel : Nat) :
    ∀ (n : Nat) (acc : Str), natDigitsAux fuel n acc = natDigitsAux fuel n [] ++ acc := by
  induction fuel with
  | zero => intro n acc; simp [natDigitsAux]
  | succ f ih =>
    intro n acc
    by_cases hn : n = 0
    · simp [natDigitsAux, hn]
    · simp only [natDigitsAux, hn, if_false]
      rw [ih (n / 10) (digitChar (n % 10) :: acc), ih (n / 10) [digitChar (n % 10)]]
      simp

theorem digitVal_digitChar (d : Nat) (hd : d < 10) : digitVal (digitChar d) = d := by
  interval_cases d <;> decide

theorem digitsToNat_append_one (xs : Str) (c : Char) :
    digitsToNat (xs ++ [c]) = 10 * digitsToNat xs + digitVal c := by
  unfold digitsToNat
  rw [List.foldl_append]
  rfl

theorem natDigitsAux_spec :
    ∀ (n fuel : Nat), 0 < n → n ≤ fuel →
      (∀ c ∈ natDigitsAux fuel n [], isDigitCh c = true)
      ∧ natDigitsAux fuel n [] ≠ []
      ∧ digitsToNat (natDigitsAux fuel n []) = n := by
  intro n
  induction n using Nat.strong_induction_on with
  | _ n ih =>
    intro fuel hn hfuel
    cases fuel with
    | zero => omega
    | succ f =>
      have hn0 : ¬(n = 0) := by omega
      simp only [natDigitsAux, hn0, if_false]
      rw [natDigitsAux_acc f (n / 10) [digitChar (n % 10)]]
      by_cases hq : n / 10 = 0
      · rw [hq, natDigitsAux_zero]
        refine ⟨?_, by simp, ?_⟩
        · intro c hc
          simp only [List.nil_append, List.mem_singleton] at hc
          subst hc
          exact digitChar_digit _ (Nat.mod_lt _ (by norm_num))
        · have hone : digitsToNat [digitChar (n % 10)] = digitVal (digitChar (n % 10)) := by
            unfold digitsToNat
            simp
          rw [List.nil_append, hone, digitVal_digitChar _ (Nat.mod_lt _ (by norm_num))]
          omega
      · have hlt : n / 10 < n := Nat.div_lt_self hn (by norm_num)
        have hle : n / 10 ≤ f := by omega
        obtain ⟨hd, hne, hv⟩ := ih (n / 10) hlt f (by omega) hle
        refine ⟨?_, by simp [hne], ?_⟩
        · intro c hc
          rw [List.mem_append] at hc
          rcases hc with h | h
          · exact hd c h
          · simp only [List.mem_singleton] at h
            subst h
            exact digitChar_digit _ (Nat.mod_lt _ (by norm_num))
        · rw [digitsToNat_append_one, hv, digitVal_digitChar _ (Nat.mod_lt _ (by norm_num))]
          omega

theorem printNat_spec (n : Nat) :
    (∀ c ∈ printNat n, isDigitCh c = true) ∧ printNat n ≠ []
      ∧ digitsToNat (printNat n) = n := by
  by_cases hn : n = 0
  · subst hn
    refine ⟨?_, by decide, by decide⟩
    intro c hc
    rw [show printNat 0 = ['0'] from rfl] at hc
    simp only [List.mem_singleton] at hc
    subst hc
    decide
  · simp only [printNat, hn, if_false]
    exact natDigitsAux_spec n n (by omega) le_rfl

theorem parseNatTok_print (n : Nat) (rest : Str)
    (hrest : match rest with | [] => True | c :: _ => isDigitCh c = false) :
    parseNatTok (printNat n ++ rest) = some (n, rest) := by
  obtain ⟨hd, hne, hv⟩ := printNat_spec n
  obtain ⟨h1, h2⟩ := span_exact isDigitCh (printNat n) rest hd hrest
  unfold parseNatTok
  simp only [h1, h2]
  rw [if_neg (by simp [List.isEmpty_iff, hne])]
  rw [hv]


theorem printNat_head_digit (n : Nat) :
    ∃ c cs, printNat n = c :: cs ∧ isDigitCh c = true := by
  obtain ⟨hd, hne, _⟩ := printNat_spec n
  cases h : printNat n with
  | nil => exact absurd h hne
  | cons c cs => exact ⟨c, cs, rfl, hd c (by rw [h]; simp)⟩

theorem parseIntTok_print (n : Int) (rest : Str)
    (hrest : match rest with | [] => True | c :: _ => isDigitCh c = false) :
    parseIntTok (printInt n ++ rest) = some (n, rest) := by
  by_cases hn : n < 0
  · simp only [printInt, if_pos hn, List.cons_append]
    rw [show parseIntTok ('-' :: (printNat n.natAbs ++ rest))
        = (parseNatTok (printNat n.natAbs ++ rest)).map fun p => (-(p.1 : Int), p.2) from rfl]
    rw [parseNatTok_print n.natAbs rest hrest]
    show some (-(n.natAbs : Int), rest) = some (n, rest)
    congr 2
    omega
  · simp only [printInt, if_neg hn]
    obtain ⟨c, cs, hpn, hc⟩ := printNat_head_digit n.toNat
    rw [hpn, List.cons_append]
    have hcm : c ≠ '-' := by
      intro h
      subst h
      exact absurd hc (by decide)
    rw [parseIntTok.eq_def]
    split
    · rename_i r heq
      rw [List.cons.injEq] at heq
      exact absurd heq.1 hcm
    · rw [← List.cons_append, ← hpn, parseNatTok_print n.toNat rest hrest]
      show some ((n.toNat : Int), rest) = some (n, rest)
      congr 2
      omega

theorem escChar_cases (c : Char) :
    (∃ e, escChar c = ['\\', e] ∧ unescChar e = some c)
    ∨ (escChar c = [c] ∧ c ≠ '"' ∧ c ≠ '\\') := by
  unfold escChar
  by_cases h1 : c = '"'
  · subst h1; exact Or.inl ⟨'"', by simp, by decide⟩
  · rw [if_neg h1]
    by_cases h2 : c = '\\'
    · subst h2; exact Or.inl ⟨'\\', by simp, by decide⟩
    · rw [if_neg h2]
      by_cases h3 : c = '\n'
      · subst h3; exact Or.inl ⟨'n', by simp, by decide⟩
      · rw [if_neg h3]
        by_cases h4 : c = '\t'
        · subst h4; exact Or.inl ⟨'t', by simp, by decide⟩
        · rw [if_neg h4]
          by_cases h5 : c = '\r'
          · subst h5; exact Or.inl ⟨'r', by simp, by decide⟩
          · rw [if_neg h5]
            exact Or.inr ⟨rfl, h1, h2⟩

theorem parseStrBody_cons (c : Char) (cs : Str) :
    parseStrBody (c :: cs) =
      if c = '"' then some ([], cs)
      else if c = '\\' then
        (match cs with
         | [] => none
         | e :: rest =>
           match unescChar e with
           | none => none
           | some d =>
             match parseStrBody rest with
             | none => none
             | some (s, r) => some (d :: s, r))
      else
        (match parseStrBody cs with
         | none => none
         | some (s, r) => some (c :: s, r)) := by
  rw [parseStrBody.eq_def]
  rfl

theorem parseStrBody_escape (s : Str) :
    ∀ rest, parseStrBody (escapeStr s ++ '"' :: rest) = some (s, rest) := by
  induction s with
  | nil =>
    intro rest
    rw [show escapeStr [] = [] from rfl, List.nil_append, parseStrBody_cons]
    simp
  | cons c cs ih =>
    intro rest
    rw [show escapeStr (c :: cs) = escChar c ++ escapeStr cs from rfl]
    rcases escChar_cases c with ⟨e, hesc, hun⟩ | ⟨hesc, hc1, hc2⟩
    · rw [hesc]
      rw [show (['\\', e] ++ escapeStr cs) ++ '"' :: rest
          = '\\' :: e :: (escapeStr cs ++ '"' :: rest) by simp]
      rw [parseStrBody_cons]
      rw [if_neg (by decide), if_pos rfl]
      simp only [hun, ih rest]
    · rw [hesc]
      rw [show ([c] ++ escapeStr cs) ++ '"' :: rest = c :: (escapeStr cs ++ '"' :: rest) by simp]
      rw [parseStrBody_cons]
      rw [if_neg hc1, if_neg hc2]
      simp only [ih rest]

theorem dumpStr_parse (s : Str) (rest : Str) (fuel : Nat) :
    parseVal (fuel + 1) (dumpStr s ++ rest) = some (Json.str s, rest) := by
  rw [show dumpStr s ++ rest = '"' :: (escapeStr s ++ ('"' :: rest)) by simp [dumpStr]]
  rw [parseVal_quote, parseStrBody_escape]
  rfl

theorem digit_not_ws (c : Char) (h : isDigitCh c = true) : isJsonWs c = false := by
  have h1 : c ≠ ' ' := by rintro rfl; exact absurd h (by decide)
  have h2 : c ≠ '\t' := by rintro rfl; exact absurd h (by decide)
  have h3 : c ≠ '\n' := by rintro rfl; exact absurd h (by decide)
  have h4 : c ≠ '\r' := by rintro rfl; exact absurd h (by decide)
  simp [isJsonWs, h1, h2, h3, h4]

theorem dumpJson_head (j : Json) :
    ∃ c cs, dumpJson j = c :: cs ∧ isJsonWs c = false ∧ c ≠ ']' := by
  cases j with
  | null => exact ⟨'n', _, rfl, by decide, by decide⟩
  | bool b => cases b
              · exact ⟨'f', _, rfl, by decide, by decide⟩
              · exact ⟨'t', _, rfl, by decide, by decide⟩
  | num n =>
    by_cases hn : n < 0
    · refine ⟨'-', printNat n.natAbs, ?_, by decide, by decide⟩
      simp [dumpJson, printInt, hn]
    · obtain ⟨c, cs, hpn, hc⟩ := printNat_head_digit n.toNat
      refine ⟨c, cs, ?_, digit_not_ws c hc, ?_⟩
      · simp [dumpJson, printInt, hn, hpn]
      · rintro rfl; exact absurd hc (by decide)
  | str s => exact ⟨'"', _, rfl, by decide, by decide⟩
  | arr a => exact ⟨'[', _, rfl, by decide, by decide⟩
  | obj o => exact ⟨lbrace, _, rfl, by decide, by decide⟩

theorem skipWs_dump (j : Json) (rest : Str) :
    skipWs (dumpJson j ++ rest) = dumpJson j ++ rest := by
  obtain ⟨c, cs, hd, hws, _⟩ := dumpJson_head j
  rw [hd, List.cons_append, skipWs_cons_of_not _ _ hws]

theorem numSafe_cons (j : Json) (c : Char) (cs : Str) (hc : isDigitCh c = false) :
    numSafe j (c :: cs) := by
  cases j <;> simp [numSafe, hc]

theorem parseVal_n (fuel : Nat) (cs : Str) :
    parseVal (fuel + 1) ('n' :: cs) = (eatLit (pystr "ull") cs).map fun r => (Json.null, r) := by
  simp +decide [parseVal]

theorem parseVal_t (fuel : Nat) (cs : Str) :
    parseVal (fuel + 1) ('t' :: cs) = (eatLit (pystr "rue") cs).map fun r => (Json.bool true, r) := by
  simp +decide [parseVal]

theorem parseVal_f (fuel : Nat) (cs : Str) :
    parseVal (fuel + 1) ('f' :: cs) = (eatLit (pystr "alse") cs).map fun r => (Json.bool false, r) := by
  simp +decide [parseVal]

theorem parseVal_lbracket (fuel : Nat) (cs : Str) :
    parseVal (fuel + 1) ('[' :: cs) =
      (match skipWs cs with
       | ']' :: r => some (Json.arr .nil, r)
       | l2 => (parseElems fuel l2).map fun p => (Json.arr p.1, p.2)) := by
  simp +decide [parseVal]

theorem parseVal_lbracket2 (fuel : Nat) (cs : Str) (c : Char) (X : Str)
    (hsw : skipWs cs = c :: X) (hc : c ≠ ']') :
    parseVal (fuel + 1) ('[' :: cs)
      = (parseElems fuel (c :: X)).map fun p => (Json.arr p.1, p.2) := by
  rw [parseVal_lbracket, hsw]
  split
  · rename_i r heq
    rw [List.cons.injEq] at heq
    exact absurd heq.1 hc
  · rfl

theorem parseVal_digit (fuel : Nat) (c : Char) (cs : Str)
    (hc : isDigitCh c = true ∨ c = '-') :
    parseVal (fuel + 1) (c :: cs)
      = (parseIntTok (c :: cs)).map fun p => (Json.num p.1, p.2) := by
  have h1 : c ≠ 'n' := by rintro rfl; rcases hc with h | h; exacts [absurd h (by decide), absurd h (by decide)]
  have h2 : c ≠ 't' := by rintro rfl; rcases hc with h | h; exacts [absurd h (by decide), absurd h (by decide)]
  have h3 : c ≠ 'f' := by rintro rfl; rcases hc with h | h; exacts [absurd h (by decide), absurd h (by decide)]
  have h4 : c ≠ '"' := by rintro rfl; rcases hc with h | h; exacts [absurd h (by decide), absurd h (by decide)]
  have h5 : c ≠ '[' := by rintro rfl; rcases hc with h | h; exacts [absurd h (by decide), absurd h (by decide)]
  have h6 : c ≠ lbrace := by rintro rfl; rcases hc with h | h; exacts [absurd h (by decide), absurd h (by decide)]
  have h7 : (c = '-' || isDigitCh c) = true := by
    rcases hc with h | h
    · simp [h]
    · simp [h]
  rw [parseVal.eq_def]
  simp only [h1, h2, h3, h4, h5, h6, if_neg, if_false, h7, if_true]

theorem parseElems_step (fuel : Nat) (l : Str) :
    parseElems (fuel + 1) l =
      (match parseVal fuel l with
       | none => none
       | some (j, r) =>
         match skipWs r with
         | ',' :: r2 => (parseElems fuel (skipWs r2)).map fun p => (JArr.cons j p.1, p.2)
         | ']' :: r2 => some (JArr.cons j .nil, r2)
         | _ => none) := by
  rw [parseElems.eq_def]

theorem parseVal_lbrace2 (fuel : Nat) (cs : Str) (d : Char) (Y : Str)
    (hsw : skipWs cs = d :: Y) (hd : d ≠ rbrace) :
    parseVal (fuel + 1) (lbrace :: cs)
      = (parseMembers fuel (d :: Y)).map fun p => (Json.obj p.1, p.2) := by
  rw [parseVal_lbrace, hsw]
  simp [hd]

theorem dumpArr_cons_append (j : Json) (tl : JArr) (X : Str) :
    ∃ Y, dumpArr (.cons j tl) ++ X = dumpJson j ++ Y := by
  cases tl with
  | nil => exact ⟨X, rfl⟩
  | cons j2 tl2 => exact ⟨',' :: ' ' :: (dumpArr (.cons j2 tl2) ++ X), by simp [dumpArr]⟩

theorem dumpObj_cons_append (k : Str) (v : Json) (tl : JObj) (X : Str) :
    ∃ Y, dumpObj (.cons k v tl) ++ X = '"' :: Y := by
  cases tl with
  | nil => exact ⟨escapeStr k ++ '"' :: ':' :: ' ' :: (dumpJson v ++ X), by simp [dumpObj, dumpStr]⟩
  | cons k2 v2 tl2 =>
    exact ⟨escapeStr k ++ '"' :: ':' :: ' ' :: (dumpJson v
      ++ ',' :: ' ' :: (dumpObj (JObj.cons k2 v2 tl2) ++ X)), by simp [dumpObj, dumpStr]⟩

theorem numSafe_nil (j : Json) : numSafe j [] := by
  cases j <;> trivial

theorem rtAll : ∀ fuel : Nat,
    (∀ (j : Json) (rest : Str), jsizeV j ≤ fuel → numSafe j rest →
      parseVal fuel (dumpJson j ++ rest) = some (j, rest))
    ∧ (∀ (j : Json) (a : JArr) (rest : Str), jsizeA (.cons j a) ≤ fuel →
      parseElems fuel (dumpArr (.cons j a) ++ ']' :: rest) = some (.cons j a, rest))
    ∧ (∀ (k : Str) (v : Json) (o : JObj) (rest : Str), jsizeO (.cons k v o) ≤ fuel →
      parseMembers fuel (dumpObj (.cons k v o) ++ rbrace :: rest) = some (.cons k v o, rest)) := by
  intro fuel
  induction fuel with
  | zero =>
    refine ⟨?_, ?_, ?_⟩
    · intro j rest hsz _
      exact absurd hsz (by cases j <;> simp [jsizeV])
    · intro j a rest hsz
      exact absurd hsz (by simp [jsizeA])
    · intro k v o rest hsz
      exact absurd hsz (by simp [jsizeO])
  | succ f ih =>
    obtain ⟨ihV, ihA, ihO⟩ := ih
    refine ⟨?_, ?_, ?_⟩
    · intro j rest hsz hns
      cases j with
      | null =>
        rw [show dumpJson Json.null ++ rest = 'n' :: (pystr "ull" ++ rest) from rfl]
        rw [parseVal_n, eatLit_append]
        rfl
      | bool b =>
        cases b
        · rw [show dumpJson (Json.bool false) ++ rest = 'f' :: (pystr "alse" ++ rest) from rfl]
          rw [parseVal_f, eatLit_append]
          rfl
        · rw [show dumpJson (Json.bool true) ++ rest = 't' :: (pystr "rue" ++ rest) from rfl]
          rw [parseVal_t, eatLit_append]
          rfl
      | num n =>
        have key : ∀ r : Str, (match r with | [] => True | c :: _ => isDigitCh c = false) →
            parseVal (f + 1) (printInt n ++ r) = some (Json.num n, r) := by
          intro r hrest
          have hp := parseIntTok_print n r hrest
          have hstep : parseVal (f + 1) (printInt n ++ r)
              = (parseIntTok (printInt n ++ r)).map fun p => (Json.num p.1, p.2) := by
            by_cases hn : n < 0
            · rw [show printInt n ++ r = '-' :: (printNat n.natAbs ++ r) by
                simp [printInt, hn]]
              exact parseVal_digit f '-' _ (Or.inr rfl)
            · obtain ⟨c, cs0, hpn, hc⟩ := printNat_head_digit n.toNat
              rw [show printInt n ++ r = c :: (cs0 ++ r) by
                simp [printInt, hn, hpn]]
              exact parseVal_digit f c _ (Or.inl hc)
          rw [hstep, hp]
          rfl
        revert hns
        cases rest with
        | nil =>
          intro _
          exact key [] trivial
        | cons c tl =>
          intro hns
          exact key (c :: tl) hns
      | str s => exact dumpStr_parse s rest f
      | arr a =>
        cases a with
        | nil =>
          rw [show dumpJson (Json.arr .nil) ++ rest = '[' :: (']' :: rest) by
            simp [dumpJson, dumpArr]]
          rw [parseVal_lbracket, skipWs_cons_of_not _ _ (by decide)]
          rfl
        | cons j tl =>
          have hA : jsizeA (JArr.cons j tl) ≤ f := by
            simp [jsizeV] at hsz
            omega
          obtain ⟨Y, hY⟩ := dumpArr_cons_append j tl (']' :: rest)
          obtain ⟨c, cs0, hd, hws, hne⟩ := dumpJson_head j
          have hback : c :: (cs0 ++ Y) = dumpArr (JArr.cons j tl) ++ ']' :: rest := by
            rw [hY, hd, List.cons_append]
          have hsw : skipWs (dumpArr (JArr.cons j tl) ++ ']' :: rest) = c :: (cs0 ++ Y) := by
            rw [hY, hd, List.cons_append, skipWs_cons_of_not _ _ hws]
          rw [show dumpJson (Json.arr (JArr.cons j tl)) ++ rest
              = '[' :: (dumpArr (JArr.cons j tl) ++ (']' :: rest)) by simp [dumpJson]]
          rw [parseVal_lbracket2 f _ c (cs0 ++ Y) hsw hne, hback, ihA j tl rest hA]
          rfl
      | obj o =>
        cases o with
        | nil =>
          rw [show dumpJson (Json.obj .nil) ++ rest = lbrace :: (rbrace :: rest) by
            simp [dumpJson, dumpObj]]
          rw [parseVal_lbrace, skipWs_cons_of_not _ _ (by decide)]
          simp
        | cons k v tl =>
          have hO : jsizeO (JObj.cons k v tl) ≤ f := by
            simp [jsizeV] at hsz
            omega
          obtain ⟨Y, hY⟩ := dumpObj_cons_append k v tl (rbrace :: rest)
          have hsw : skipWs (dumpObj (JObj.cons k v tl) ++ rbrace :: rest) = '"' :: Y := by
            rw [hY, skipWs_cons_of_not _ _ (by decide)]
          rw [show dumpJson (Json.obj (JObj.cons k v tl)) ++ rest
              = lbrace :: (dumpObj (JObj.cons k v tl) ++ (rbrace :: rest)) by simp [dumpJson]]
          rw [parseVal_lbrace2 f _ '"' Y hsw (by decide), ← hY, ihO k v tl rest hO]
          rfl
    · intro j a rest hsz
      cases a with
      | nil =>
        have hV : jsizeV j ≤ f := by
          simp [jsizeA] at hsz
          omega
        rw [parseElems_step]
        rw [show dumpArr (JArr.cons j JArr.nil) = dumpJson j from rfl]
        rw [ihV j (']' :: rest) hV (numSafe_cons j ']' rest (by decide))]
        simp +decide [skipWs]
      | cons j2 tl =>
        have hV : jsizeV j ≤ f := by
          simp [jsizeA] at hsz
          omega
        have hA : jsizeA (JArr.cons j2 tl) ≤ f := by
          simp [jsizeA] at hsz ⊢
          omega
        have hB : skipWs (dumpArr (JArr.cons j2 tl) ++ ']' :: rest)
            = dumpArr (JArr.cons j2 tl) ++ ']' :: rest := by
          obtain ⟨Y, hY⟩ := dumpArr_cons_append j2 tl (']' :: rest)
          obtain ⟨c, cs0, hd, hws, _⟩ := dumpJson_head j2
          rw [hY, hd, List.cons_append, skipWs_cons_of_not _ _ hws]
        rw [parseElems_step]
        rw [show dumpArr (JArr.cons j (JArr.cons j2 tl)) ++ ']' :: rest
            = dumpJson j ++ (',' :: ' ' :: (dumpArr (JArr.cons j2 tl) ++ ']' :: rest)) by
          simp [dumpArr]]
        rw [ihV j _ hV (numSafe_cons j ',' _ (by decide))]
        simp +decide [skipWs]
        rw [hB, ihA j2 tl rest hA]
    · intro k v o rest hsz
      cases o with
      | nil =>
        have hV : jsizeV v ≤ f := by
          simp [jsizeO] at hsz
          omega
        rw [show dumpObj (JObj.cons k v JObj.nil) ++ rbrace :: rest
            = '"' :: (escapeStr k ++ '"' :: (':' :: ' ' :: (dumpJson v ++ rbrace :: rest))) by
          simp [dumpObj, dumpStr]]
        rw [parseMembers_quote, parseStrBody_escape]
        simp +decide [skipWs]
        rw [skipWs_dump v (rbrace :: rest),
          ihV v (rbrace :: rest) hV (numSafe_cons v rbrace rest (by decide))]
        simp +decide [skipWs]
      | cons k2 v2 tl =>
        have hV : jsizeV v ≤ f := by
          simp [jsizeO] at hsz
          omega
        have hO : jsizeO (JObj.cons k2 v2 tl) ≤ f := by
          simp [jsizeO] at hsz ⊢
          omega
        have hB : skipWs (dumpObj (JObj.cons k2 v2 tl) ++ rbrace :: rest)
            = dumpObj (JObj.cons k2 v2 tl) ++ rbrace :: rest := by
          obtain ⟨Y, hY⟩ := dumpObj_cons_append k2 v2 tl (rbrace :: rest)
          rw [hY, skipWs_cons_of_not _ _ (by decide)]
        rw [show dumpObj (JObj.cons k v (JObj.cons k2 v2 tl)) ++ rbrace :: rest
            = '"' :: (escapeStr k ++ '"' :: (':' :: ' ' :: (dumpJson v
                ++ ',' :: ' ' :: (dumpObj (JObj.cons k2 v2 tl) ++ rbrace :: rest)))) by
          simp [dumpObj, dumpStr]]
        rw [parseMembers_quote, parseStrBody_escape]
        simp +decide [skipWs]
        rw [skipWs_dump v, ihV v _ hV (numSafe_cons v ',' _ (by decide))]
        simp +decide [skipWs]
        rw [hB, ihO k2 v2 tl rest hO]

theorem printNat_length_pos (n : Nat) : 0 < (printNat n).length := by
  obtain ⟨_, hne, _⟩ := printNat_spec n
  cases h : printNat n with
  | nil => exact absurd h hne
  | cons c cs => simp [h]

theorem printInt_length_pos (n : Int) : 0 < (printInt n).length := by
  unfold printInt
  by_cases hn : n < 0
  · simp [hn]
  · simp [hn, printNat_length_pos]

mutual
theorem jlenV (j : Json) : jsizeV j ≤ (dumpJson j).length := by
  cases j with
  | null => simp [jsizeV, dumpJson, pystr]
  | bool b => cases b <;> simp [jsizeV, dumpJson, pystr]
  | num n =>
    have := printInt_length_pos n
    simp only [jsizeV, dumpJson]
    omega
  | str s => simp [jsizeV, dumpJson, dumpStr]
  | arr a =>
    have := jlenA a
    simp only [jsizeV, dumpJson]
    simp only [List.length_cons, List.length_append, List.length_singleton]
    omega
  | obj o =>
    have := jlenO o
    simp only [jsizeV, dumpJson]
    simp only [List.length_cons, List.length_append, List.length_singleton]
    omega
theorem jlenA (a : JArr) : jsizeA a ≤ (dumpArr a).length + 1 := by
  cases a with
  | nil => simp [jsizeA]
  | cons j tl =>
    cases tl with
    | nil =>
      have := jlenV j
      simp only [jsizeA, dumpArr]
      omega
    | cons j2 tl2 =>
      have h1 := jlenV j
      have h2 := jlenA (JArr.cons j2 tl2)
      simp only [jsizeA, dumpArr] at h2 ⊢
      simp only [List.length_append, List.length_cons]
      omega
theorem jlenO (o : JObj) : jsizeO o ≤ (dumpObj o).length + 1 := by
  cases o with
  | nil => simp [jsizeO]
  | cons k v tl =>
    cases tl with
    | nil =>
      have := jlenV v
      simp only [jsizeO, dumpObj]
      simp only [List.length_append, List.length_cons]
      omega
    | cons k2 v2 tl2 =>
      have h1 := jlenV v
      have h2 := jlenO (JObj.cons k2 v2 tl2)
      simp only [jsizeO, dumpObj] at h2 ⊢
      simp only [List.length_append, List.length_cons]
      omega
end

theorem loads_dumps (j : Json) : loads (dumpJson j) = some j := by
  have h1 : skipWs (dumpJson j) = dumpJson j := by
    have h := skipWs_dump j []
    simpa using h
  have hfuel : jsizeV j ≤ 2 * (dumpJson j).length + 2 := by
    have := jlenV j
    omega
  have h2 := (rtAll (2 * (dumpJson j).length + 2)).1 j [] hfuel (numSafe_nil j)
  rw [List.append_nil] at h2
  unfold loads
  rw [h1, h2]
  rfl

theorem skipWs_decomp (l : Str) : ∃ w, l = w ++ skipWs l := by
  induction l with
  | nil => exact ⟨[], rfl⟩
  | cons c cs ih =>
    by_cases h : isJsonWs c = true
    · obtain ⟨w, hw⟩ := ih
      refine ⟨c :: w, ?_⟩
      rw [show skipWs (c :: cs) = skipWs cs by simp [skipWs, h]]
      simpa using hw
    · refine ⟨[], ?_⟩
      rw [skipWs_cons_of_not _ _ (by simpa using h)]
      rfl

theorem skipWs_nil_ws (l : Str) (h : skipWs l = []) : ∀ c ∈ l, isJsonWs c = true := by
  induction l with
  | nil => intro c hc; cases hc
  | cons c cs ih =>
    by_cases hw : isJsonWs c = true
    · rw [show skipWs (c :: cs) = skipWs cs by simp [skipWs, hw]] at h
      intro d hd
      rcases List.mem_cons.mp hd with rfl | hd
      · exact hw
      · exact ih h d hd
    · rw [skipWs_cons_of_not _ _ (by simpa using hw)] at h
      cases h

theorem eatLit_decomp (pre l r : Str) (h : eatLit pre l = some r) : l = pre ++ r := by
  unfold eatLit at h
  by_cases hp : pre.isPrefixOf l
  · rw [if_pos hp, Option.some.injEq] at h
    obtain ⟨t, ht⟩ := List.isPrefixOf_iff_prefix.mp hp
    rw [← ht, List.drop_left] at h
    rw [← ht, h]
  · rw [if_neg hp] at h
    cases h

theorem parseNatTok_decomp (l : Str) (n : Nat) (r : Str) (h : parseNatTok l = some (n, r)) :
    ∃ d, l = d ++ r := by
  unfold parseNatTok at h
  by_cases he : (l.takeWhile isDigitCh).isEmpty
  · rw [if_pos he] at h
    cases h
  · rw [if_neg he, Option.some.injEq, Prod.mk.injEq] at h
    refine ⟨l.takeWhile isDigitCh, ?_⟩
    rw [← h.2, List.takeWhile_append_dropWhile]

theorem parseIntTok_decomp (l : Str) (n : Int) (r : Str) (h : parseIntTok l = some (n, r)) :
    ∃ d, l = d ++ r := by
  rw [parseIntTok.eq_def] at h
  split at h
  · rename_i rest
    cases hn : parseNatTok rest with
    | none => rw [hn] at h; cases h
    | some p =>
      rw [hn] at h
      obtain ⟨n', r'⟩ := p
      simp only [Option.map, Option.some.injEq, Prod.mk.injEq] at h
      obtain ⟨d, hd⟩ := parseNatTok_decomp rest n' r' hn
      exact ⟨'-' :: d, by rw [hd, h.2]; rfl⟩
  · cases hn : parseNatTok l with
    | none => rw [hn] at h; cases h
    | some p =>
      rw [hn] at h
      obtain ⟨n', r'⟩ := p
      simp only [Option.map, Option.some.injEq, Prod.mk.injEq] at h
      obtain ⟨d, hd⟩ := parseNatTok_decomp l n' r' hn
      exact ⟨d, by rw [hd, h.2]⟩

theorem parseStrBody_decomp :
    ∀ (k : Str) (cs r : Str), parseStrBody cs = some (k, r) → ∃ body, cs = body ++ r := by
  intro k
  induction k with
  | nil =>
    intro cs r h
    cases cs with
    | nil => cases h
    | cons c cs2 =>
      rw [parseStrBody_cons] at h
      by_cases hq : c = '"'
      · rw [if_pos hq, Option.some.injEq, Prod.mk.injEq] at h
        refine ⟨[c], ?_⟩
        rw [h.2]
        rfl
      · rw [if_neg hq] at h
        by_cases hb : c = '\\'
        · rw [if_pos hb] at h
          cases cs2 with
          | nil => cases h
          | cons e rest =>
            replace h : (match unescChar e with
                | none => none
                | some d =>
                  match parseStrBody rest with
                  | none => none
                  | some (s, r) => some (d :: s, r)) = some ([], r) := h
            cases hu : unescChar e with
            | none => rw [hu] at h; cases h
            | some d0 =>
              rw [hu] at h
              replace h : (match parseStrBody rest with
                  | none => none
                  | some (s, r) => some (d0 :: s, r)) = some ([], r) := h
              cases hp : parseStrBody rest with
              | none => rw [hp] at h; cases h
              | some p =>
                obtain ⟨s2, r2⟩ := p
                rw [hp] at h
                replace h : some (d0 :: s2, r2) = some (([] : Str), r) := h
                simp at h
        · rw [if_neg hb] at h
          cases hp : parseStrBody cs2 with
          | none => rw [hp] at h; cases h
          | some p =>
            obtain ⟨s2, r2⟩ := p
            rw [hp] at h
            replace h : some (c :: s2, r2) = some (([] : Str), r) := h
            simp at h
  | cons d k2 ih =>
    intro cs r h
    cases cs with
    | nil => cases h
    | cons c cs2 =>
      rw [parseStrBody_cons] at h
      by_cases hq : c = '"'
      · rw [if_pos hq, Option.some.injEq, Prod.mk.injEq] at h
        cases h.1
      · rw [if_neg hq] at h
        by_cases hb : c = '\\'
        · rw [if_pos hb] at h
          cases cs2 with
          | nil => cases h
          | cons e rest =>
            replace h : (match unescChar e with
                | none => none
                | some d =>
                  match parseStrBody rest with
                  | none => none
                  | some (s, r) => some (d :: s, r)) = some (d :: k2, r) := h
            cases hu : unescChar e with
            | none => rw [hu] at h; cases h
            | some d0 =>
              rw [hu] at h
              replace h : (match parseStrBody rest with
                  | none => none
                  | some (s, r) => some (d0 :: s, r)) = some (d :: k2, r) := h
              cases hp : parseStrBody rest with
              | none => rw [hp] at h; cases h
              | some p =>
                obtain ⟨s2, r2⟩ := p
                rw [hp] at h
                replace h : some (d0 :: s2, r2) = some (d :: k2, r) := h
                rw [Option.some.injEq, Prod.mk.injEq, List.cons.injEq] at h
                obtain ⟨⟨hd0, hs2⟩, hr2⟩ := h
                obtain ⟨body, hbody⟩ := ih rest r (by rw [hp, hs2, hr2])
                exact ⟨c :: e :: body, by rw [hbody]; rfl⟩
        · rw [if_neg hb] at h
          cases hp : parseStrBody cs2 with
          | none => rw [hp] at h; cases h
          | some p =>
            obtain ⟨s2, r2⟩ := p
            rw [hp] at h
            replace h : some (c :: s2, r2) = some (d :: k2, r) := h
            rw [Option.some.injEq, Prod.mk.injEq, List.cons.injEq] at h
            obtain ⟨⟨hc, hs2⟩, hr2⟩ := h
            obtain ⟨body, hbody⟩ := ih cs2 r (by rw [hp, hs2, hr2])
            exact ⟨c :: body, by rw [hbody]; rfl⟩

theorem parseVal_other_char (fuel : Nat) (c : Char) (cs : Str)
    (h1 : c ≠ 'n') (h2 : c ≠ 't') (h3 : c ≠ 'f') (h4 : c ≠ '"') (h5 : c ≠ '[')
    (h6 : c ≠ lbrace) (h7 : (c = '-' || isDigitCh c) = false) :
    parseVal (fuel + 1) (c :: cs) = none := by
  rw [parseVal.eq_def]
  simp only [h1, h2, h3, h4, h5, h6, if_neg, if_false, h7, Bool.false_eq_true]

theorem parseMembers_not_quote (fuel : Nat) (c : Char) (cs : Str) (hc : c ≠ '"') :
    parseMembers (fuel + 1) (c :: cs) = none := by
  rw [parseMembers.eq_def]
  simp only [hc, if_neg, if_false]

theorem decompAll : ∀ fuel : Nat,
    (∀ (l : Str) (v : Json) (rest : Str), parseVal fuel l = some (v, rest) →
      ∃ pre, l = pre ++ rest ∧ ∀ o : JObj, v = Json.obj o → ∃ q, pre = q ++ [rbrace])
    ∧ (∀ (l : Str) (a : JArr) (rest : Str), parseElems fuel l = some (a, rest) →
      ∃ q, l = q ++ ']' :: rest)
    ∧ (∀ (l : Str) (o : JObj) (rest : Str), parseMembers fuel l = some (o, rest) →
      ∃ q, l = q ++ rbrace :: rest) := by
  intro fuel
  induction fuel with
  | zero =>
    refine ⟨?_, ?_, ?_⟩ <;> (intro l x rest h; cases h)
  | succ f ih =>
    obtain ⟨ihV, ihE, ihM⟩ := ih
    refine ⟨?_, ?_, ?_⟩
    · intro l v rest h
      cases l with
      | nil => cases h
      | cons c cs =>
        by_cases h1 : c = 'n'
        · subst h1
          rw [parseVal_n] at h
          cases he : eatLit (pystr "ull") cs with
          | none => rw [he] at h; cases h
          | some r =>
            rw [he] at h
            replace h : some (Json.null, r) = some (v, rest) := h
            rw [Option.some.injEq, Prod.mk.injEq] at h
            obtain ⟨hv, hr⟩ := h
            refine ⟨'n' :: pystr "ull", ?_, ?_⟩
            · rw [eatLit_decomp _ _ _ he, hr]
              rfl
            · intro o ho
              rw [← hv] at ho
              cases ho
        · by_cases h2 : c = 't'
          · subst h2
            rw [parseVal_t] at h
            cases he : eatLit (pystr "rue") cs with
            | none => rw [he] at h; cases h
            | some r =>
              rw [he] at h
              replace h : some (Json.bool true, r) = some (v, rest) := h
              rw [Option.some.injEq, Prod.mk.injEq] at h
              obtain ⟨hv, hr⟩ := h
              refine ⟨'t' :: pystr "rue", ?_, ?_⟩
              · rw [eatLit_decomp _ _ _ he, hr]
                rfl
              · intro o ho
                rw [← hv] at ho
                cases ho
          · by_cases h3 : c = 'f'
            · subst h3
              rw [parseVal_f] at h
              cases he : eatLit (pystr "alse") cs with
              | none => rw [he] at h; cases h
              | some r =>
                rw [he] at h
                replace h : some (Json.bool false, r) = some (v, rest) := h
                rw [Option.some.injEq, Prod.mk.injEq] at h
                obtain ⟨hv, hr⟩ := h
                refine ⟨'f' :: pystr "alse", ?_, ?_⟩
                · rw [eatLit_decomp _ _ _ he, hr]
                  rfl
                · intro o ho
                  rw [← hv] at ho
                  cases ho
            · by_cases h4 : c = '"'
              · subst h4
                rw [parseVal_quote] at h
                cases hsb : parseStrBody cs with
                | none => rw [hsb] at h; cases h
                | some p =>
                  obtain ⟨k, r⟩ := p
                  rw [hsb] at h
                  replace h : some (Json.str k, r) = some (v, rest) := h
                  rw [Option.some.injEq, Prod.mk.injEq] at h
                  obtain ⟨hv, hr⟩ := h
                  obtain ⟨body, hbody⟩ := parseStrBody_decomp k cs r hsb
                  refine ⟨'"' :: body, ?_, ?_⟩
                  · rw [hbody, hr]
                    rfl
                  · intro o ho
                    rw [← hv] at ho
                    cases ho
              · by_cases h5 : c = '['
                · subst h5
                  rw [parseVal_lbracket] at h
                  obtain ⟨w, hw⟩ := skipWs_decomp cs
                  split at h
                  · rename_i r heq
                    replace h : some (Json.arr JArr.nil, r) = some (v, rest) := h
                    rw [Option.some.injEq, Prod.mk.injEq] at h
                    obtain ⟨hv, hr⟩ := h
                    refine ⟨'[' :: (w ++ [']']), ?_, ?_⟩
                    · rw [hw, heq, hr]
                      simp
                    · intro o ho
                      rw [← hv] at ho
                      cases ho
                  · cases hpe : parseElems f (skipWs cs) with
                    | none => rw [hpe] at h; cases h
                    | some p =>
                      obtain ⟨a, r⟩ := p
                      rw [hpe] at h
                      replace h : some (Json.arr a, r) = some (v, rest) := h
                      rw [Option.some.injEq, Prod.mk.injEq] at h
                      obtain ⟨hv, hr⟩ := h
                      obtain ⟨q, hq⟩ := ihE (skipWs cs) a r hpe
                      refine ⟨'[' :: (w ++ q ++ [']']), ?_, ?_⟩
                      · rw [hw, hq, hr]
                        simp
                      · intro o ho
                        rw [← hv] at ho
                        cases ho
                · by_cases h6 : c = lbrace
                  · subst h6
                    rw [parseVal_lbrace] at h
                    obtain ⟨w, hw⟩ := skipWs_decomp cs
                    split at h
                    · cases h
                    · rename_i d r heq
                      by_cases hd : d = rbrace
                      · rw [if_pos hd] at h
                        replace h : some (Json.obj JObj.nil, r) = some (v, rest) := h
                        rw [Option.some.injEq, Prod.mk.injEq] at h
                        obtain ⟨hv, hr⟩ := h
                        refine ⟨lbrace :: (w ++ [rbrace]), ?_, ?_⟩
                        · rw [hw, heq, hd, hr]
                          simp
                        · intro o ho
                          exact ⟨lbrace :: w, rfl⟩
                      · rw [if_neg hd] at h
                        cases hpm : parseMembers f (d :: r) with
                        | none => rw [hpm] at h; cases h
                        | some p =>
                          obtain ⟨o2, r2⟩ := p
                          rw [hpm] at h
                          replace h : some (Json.obj o2, r2) = some (v, rest) := h
                          rw [Option.some.injEq, Prod.mk.injEq] at h
                          obtain ⟨hv, hr⟩ := h
                          obtain ⟨q, hq⟩ := ihM (d :: r) o2 r2 hpm
                          refine ⟨lbrace :: (w ++ q ++ [rbrace]), ?_, ?_⟩
                          · rw [hw, heq, hq, hr]
                            simp
                          · intro o ho
                            exact ⟨lbrace :: (w ++ q), by simp⟩
                  · by_cases h7 : (c = '-' || isDigitCh c) = true
                    · have hor : isDigitCh c = true ∨ c = '-' := by
                        by_cases hm : c = '-'
                        · exact Or.inr hm
                        · left
                          cases hdg : isDigitCh c
                          · rw [hdg] at h7
                            simp [hm] at h7
                          · rfl
                      rw [parseVal_digit f c cs hor] at h
                      cases hit : parseIntTok (c :: cs) with
                      | none => rw [hit] at h; cases h
                      | some p =>
                        obtain ⟨n, r⟩ := p
                        rw [hit] at h
                        replace h : some (Json.num n, r) = some (v, rest) := h
                        rw [Option.some.injEq, Prod.mk.injEq] at h
                        obtain ⟨hv, hr⟩ := h
                        obtain ⟨d, hd⟩ := parseIntTok_decomp (c :: cs) n r hit
                        refine ⟨d, ?_, ?_⟩
                        · rw [hd, hr]
                        · intro o ho
                          rw [← hv] at ho
                          cases ho
                    · rw [parseVal_other_char f c cs h1 h2 h3 h4 h5 h6
                        (by simpa using h7)] at h
                      cases h
    · intro l a rest h
      rw [parseElems_step] at h
      cases hpv : parseVal f l with
      | none => rw [hpv] at h; cases h
      | some p =>
        obtain ⟨j, r⟩ := p
        rw [hpv] at h
        replace h : (match skipWs r with
            | ',' :: r2 => (parseElems f (skipWs r2)).map fun p => (JArr.cons j p.1, p.2)
            | ']' :: r2 => some (JArr.cons j .nil, r2)
            | _ => none) = some (a, rest) := h
        obtain ⟨pre, hpre, -⟩ := ihV l j r hpv
        obtain ⟨w, hw⟩ := skipWs_decomp r
        split at h
        · rename_i r2 heq
          cases hpe : parseElems f (skipWs r2) with
          | none => rw [hpe] at h; cases h
          | some p2 =>
            obtain ⟨a2, r3⟩ := p2
            rw [hpe] at h
            replace h : some (JArr.cons j a2, r3) = some (a, rest) := h
            rw [Option.some.injEq, Prod.mk.injEq] at h
            obtain ⟨ha, hr3⟩ := h
            obtain ⟨q2, hq2⟩ := ihE (skipWs r2) a2 r3 hpe
            obtain ⟨w2, hw2⟩ := skipWs_decomp r2
            refine ⟨pre ++ w ++ ',' :: (w2 ++ q2), ?_⟩
            rw [hpre, hw, heq, hw2, hq2, hr3]
            simp
        · rename_i r2 heq
          replace h : some (JArr.cons j JArr.nil, r2) = some (a, rest) := h
          rw [Option.some.injEq, Prod.mk.injEq] at h
          obtain ⟨ha, hr2⟩ := h
          refine ⟨pre ++ w, ?_⟩
          rw [hpre, hw, heq, hr2]
          simp
        · cases h
    · intro l o rest h
      cases l with
      | nil => cases h
      | cons c cs =>
        by_cases hc : c = '"'
        · subst hc
          rw [parseMembers_quote] at h
          cases hsb : parseStrBody cs with
          | none => rw [hsb] at h; cases h
          | some p =>
            obtain ⟨k, r⟩ := p
            rw [hsb] at h
            replace h : (match skipWs r with
                | ':' :: r2 =>
                  match parseVal f (skipWs r2) with
                  | none => none
                  | some (v, r3) =>
                    match skipWs r3 with
                    | ',' :: r4 => (parseMembers f (skipWs r4)).map fun p => (JObj.cons k v p.1, p.2)
                    | d :: r4 => if d = rbrace then some (JObj.cons k v .nil, r4) else none
                    | [] => none
                | _ => none) = some (o, rest) := h
            obtain ⟨body, hbody⟩ := parseStrBody_decomp k cs r hsb
            obtain ⟨w, hw⟩ := skipWs_decomp r
            split at h
            · rename_i r2 heq
              cases hpv : parseVal f (skipWs r2) with
              | none => rw [hpv] at h; cases h
              | some p2 =>
                obtain ⟨v, r3⟩ := p2
                rw [hpv] at h
                replace h : (match skipWs r3 with
                    | ',' :: r4 => (parseMembers f (skipWs r4)).map fun p => (JObj.cons k v p.1, p.2)
                    | d :: r4 => if d = rbrace then some (JObj.cons k v .nil, r4) else none
                    | [] => none) = some (o, rest) := h
                obtain ⟨preV, hpreV, -⟩ := ihV (skipWs r2) v r3 hpv
                obtain ⟨w2, hw2⟩ := skipWs_decomp r2
                obtain ⟨w3, hw3⟩ := skipWs_decomp r3
                split at h
                · rename_i r4 heq3
                  cases hpm : parseMembers f (skipWs r4) with
                  | none => rw [hpm] at h; cases h
                  | some p3 =>
                    obtain ⟨o2, r5⟩ := p3
                    rw [hpm] at h
                    replace h : some (JObj.cons k v o2, r5) = some (o, rest) := h
                    rw [Option.some.injEq, Prod.mk.injEq] at h
                    obtain ⟨ho, hr5⟩ := h
                    obtain ⟨q4, hq4⟩ := ihM (skipWs r4) o2 r5 hpm
                    obtain ⟨w4, hw4⟩ := skipWs_decomp r4
                    refine ⟨'"' :: (body ++ w ++ ':' :: (w2 ++ preV ++ w3 ++ ',' :: (w4 ++ q4))), ?_⟩
                    rw [hbody, hw, heq, hw2, hpreV, hw3, heq3, hw4, hq4, hr5]
                    simp
                · rename_i d r4 hne heq3
                  by_cases hd : d = rbrace
                  · rw [if_pos hd] at h
                    replace h : some (JObj.cons k v JObj.nil, r4) = some (o, rest) := h
                    rw [Option.some.injEq, Prod.mk.injEq] at h
                    obtain ⟨ho, hr4⟩ := h
                    refine ⟨'"' :: (body ++ w ++ ':' :: (w2 ++ preV ++ w3)), ?_⟩
                    rw [hbody, hw, heq, hw2, hpreV, hw3, heq3, hd, hr4]
                    simp
                  · rw [if_neg hd] at h
                    cases h
                · cases h
            · cases h
        · rw [parseMembers_not_quote f c cs hc] at h
          cases h

theorem loads_append_not_obj (X : Str) (c : Char) (hc1 : c ≠ rbrace)
    (hc2 : isJsonWs c = false) (o : JObj) : loads (X ++ [c]) ≠ some (Json.obj o) := by
  intro h
  unfold loads at h
  cases hpv : parseVal (2 * (X ++ [c]).length + 2) (skipWs (X ++ [c])) with
  | none => rw [hpv] at h; cases h
  | some p =>
    obtain ⟨j, rest⟩ := p
    rw [hpv] at h
    replace h : (if skipWs rest = [] then some j else none) = some (Json.obj o) := h
    by_cases hsw : skipWs rest = []
    · rw [if_pos hsw, Option.some.injEq] at h
      subst h
      obtain ⟨pre, hpre, hobj⟩ := (decompAll _).1 _ _ _ hpv
      obtain ⟨q, hq⟩ := hobj o rfl
      obtain ⟨w, hw⟩ := skipWs_decomp (X ++ [c])
      have hws := skipWs_nil_ws rest hsw
      have hall : X ++ [c] = (w ++ q) ++ rbrace :: rest := by
        rw [hw, hpre, hq]
        simp
      have hL : (X ++ [c]).reverse = c :: X.reverse := by simp
      have hR : ((w ++ q) ++ rbrace :: rest).reverse
          = rest.reverse ++ rbrace :: (w ++ q).reverse := by simp
      have hcr : c :: X.reverse = rest.reverse ++ rbrace :: (w ++ q).reverse := by
        rw [← hL, ← hR, hall]
      cases hRv : rest.reverse with
      | nil =>
        rw [hRv, List.nil_append, List.cons.injEq] at hcr
        exact hc1 hcr.1
      | cons d ds =>
        rw [hRv, List.cons_append, List.cons.injEq] at hcr
        have hd : d ∈ rest := by
          rw [← List.mem_reverse, hRv]
          exact List.mem_cons_self _ _
        rw [← hcr.1] at hd
        have ht := hws c hd
        rw [hc2] at ht
        cases ht
    · rw [if_neg hsw] at h
      cases h

mutual
theorem trimVal_idem (k : Str) (v : Json) : trimVal k (trimVal k v) = trimVal k v := by
  cases v with
  | str s =>
    by_cases hp : k = pystr "sequence_preview" ∧ MAX_SEQUENCE_PREVIEW_CHARS < s.length
    · rw [show trimVal k (Json.str s)
          = Json.str (s.take MAX_SEQUENCE_PREVIEW_CHARS ++ pystr "...") by
        rw [trimVal, if_pos hp]]
      rw [trimVal]
      rw [if_pos ⟨hp.1, by
        rw [List.length_append, List.length_take, show (pystr "...").length = 3 from rfl]
        have := hp.2
        omega⟩]
      rw [List.take_left' (by
        rw [List.length_take]
        have := hp.2
        omega)]
    · rw [show trimVal k (Json.str s) = Json.str s by rw [trimVal, if_neg hp]]
      rw [trimVal, if_neg hp]
  | arr a =>
    rw [show trimVal k (Json.arr a) = Json.arr (trimArr a) from rfl]
    rw [trimVal, trimArr_idem a]
  | obj o =>
    rw [show trimVal k (Json.obj o) = Json.obj (trimObj o) from rfl]
    rw [trimVal, trimObj_idem o]
  | null => rfl
  | bool b => rfl
  | num n => rfl
theorem trimElem_idem (v : Json) : trimElem (trimElem v) = trimElem v := by
  cases v with
  | arr a =>
    rw [show trimElem (Json.arr a) = Json.arr (trimArr a) from rfl]
    rw [trimElem, trimArr_idem a]
  | obj o =>
    rw [show trimElem (Json.obj o) = Json.obj (trimObj o) from rfl]
    rw [trimElem, trimObj_idem o]
  | null => rfl
  | bool b => rfl
  | num n => rfl
  | str s => rfl
theorem trimArr_idem (a : JArr) : trimArr (trimArr a) = trimArr a := by
  cases a with
  | nil => rfl
  | cons v tl =>
    rw [show trimArr (JArr.cons v tl) = JArr.cons (trimElem v) (trimArr tl) from rfl]
    rw [trimArr, trimElem_idem v, trimArr_idem tl]
theorem trimObj_idem (o : JObj) : trimObj (trimObj o) = trimObj o := by
  cases o with
  | nil => rfl
  | cons k v tl =>
    rw [show trimObj (JObj.cons k v tl) = JObj.cons k (trimVal k v) (trimObj tl) from rfl]
    rw [trimObj, trimVal_idem k v, trimObj_idem tl]
end

theorem trimObj_hasKey (key : Str) (o : JObj) :
    JObj.hasKey key (trimObj o) = JObj.hasKey key o := by
  cases o with
  | nil => rfl
  | cons k v tl =>
    show (if k = key then true else JObj.hasKey key (trimObj tl))
      = (if k = key then true else JObj.hasKey key tl)
    rw [trimObj_hasKey key tl]

theorem not_obj_facts (s : Str) (h : ∀ o : JObj, loads s ≠ some (Json.obj o)) :
    isErrorObj s = false ∧ _trim_sequence_previews s = s := by
  unfold isErrorObj _trim_sequence_previews
  cases hl : loads s with
  | none => exact ⟨rfl, rfl⟩
  | some j =>
    cases j with
    | obj o => exact absurd hl (h o)
    | null => exact ⟨rfl, rfl⟩
    | bool b => exact ⟨rfl, rfl⟩
    | num n => exact ⟨rfl, rfl⟩
    | str s2 => exact ⟨rfl, rfl⟩
    | arr a => exact ⟨rfl, rfl⟩

/-- The truncation marker ends with a right bracket. -/
theorem TRUNC_MARKER_split :
    TRUNC_MARKER = pystr "\n...[truncated to 2000 chars" ++ [']'] := by decide

theorem compress_fix_of_short_bracket (X : Str)
    (hlen : ¬ MAX_TOOL_RESULT_CHARS < (X ++ [']']).length) :
    compress_tool_result (X ++ [']']) = X ++ [']'] := by
  obtain ⟨he, ht⟩ := not_obj_facts (X ++ [']'])
    (fun o => loads_append_not_obj X ']' (by decide) (by decide) o)
  unfold compress_tool_result
  rw [he, if_neg (by simp), ht, if_neg hlen]

theorem compress_idem (s : Str) :
    compress_tool_result (compress_tool_result s) = compress_tool_result s := by
  by_cases he : isErrorObj s = true
  · rw [show compress_tool_result s = s by unfold compress_tool_result; rw [if_pos he]]
    unfold compress_tool_result
    rw [if_pos he]
  · have hes : compress_tool_result s
        = (if MAX_TOOL_RESULT_CHARS < (_trim_sequence_previews s).length then
            (_trim_sequence_previews s).take (MAX_TOOL_RESULT_CHARS - 60) ++ TRUNC_MARKER
          else _trim_sequence_previews s) := by
      unfold compress_tool_result
      rw [if_neg he]
    by_cases hlen : MAX_TOOL_RESULT_CHARS < (_trim_sequence_previews s).length
    · rw [hes, if_pos hlen]
      rw [TRUNC_MARKER_split, ← List.append_assoc]
      apply compress_fix_of_short_bracket
      rw [List.length_append, List.length_append, List.length_take,
        show (pystr "\n...[truncated to 2000 chars").length = 28 from rfl,
        show MAX_TOOL_RESULT_CHARS = 2000 from rfl,
        show ([']'] : Str).length = 1 from rfl]
      omega
    · rw [hes, if_neg hlen]
      cases hl : loads s with
      | none =>
        have hts : _trim_sequence_previews s = s := by
          unfold _trim_sequence_previews
          rw [hl]
        rw [hts]
        unfold compress_tool_result
        rw [if_neg he, hts, if_neg (by rw [hts] at hlen; exact hlen)]
      | some j =>
        cases j with
        | obj o =>
          have hts : _trim_sequence_previews s = dumpJson (.obj (trimObj o)) := by
            unfold _trim_sequence_previews
            rw [hl]
          have hkey : JObj.hasKey (pystr "error") o = false := by
            unfold isErrorObj at he
            rw [hl] at he
            simpa using he
          have hload2 : loads (dumpJson (Json.obj (trimObj o)))
              = some (Json.obj (trimObj o)) := loads_dumps _
          have he2 : isErrorObj (dumpJson (Json.obj (trimObj o))) = false := by
            unfold isErrorObj
            rw [hload2]
            show JObj.hasKey (pystr "error") (trimObj o) = false
            rw [trimObj_hasKey, hkey]
          have ht2 : _trim_sequence_previews (dumpJson (Json.obj (trimObj o)))
              = dumpJson (Json.obj (trimObj o)) := by
            unfold _trim_sequence_previews
            rw [hload2]
            show dumpJson (Json.obj (trimObj (trimObj o))) = dumpJson (Json.obj (trimObj o))
            rw [trimObj_idem]
          rw [hts]
          unfold compress_tool_result
          rw [he2, if_neg (by simp), ht2, if_neg (by rw [hts] at hlen; exact hlen)]
        | null =>
          have hts : _trim_sequence_previews s = s := by
            unfold _trim_sequence_previews
            rw [hl]
          rw [hts]
          unfold compress_tool_result
          rw [if_neg he, hts, if_neg (by rw [hts] at hlen; exact hlen)]
        | bool b =>
          have hts : _trim_sequence_previews s = s := by
            unfold _trim_sequence_previews
            rw [hl]
          rw [hts]
          unfold compress_tool_result
          rw [if_neg he, hts, if_neg (by rw [hts] at hlen; exact hlen)]
        | num n =>
          have hts : _trim_sequence_previews s = s := by
            unfold _trim_sequence_previews
            rw [hl]
          rw [hts]
          unfold compress_tool_result
          rw [if_neg he, hts, if_neg (by rw [hts] at hlen; exact hlen)]
        | str s2 =>
          have hts : _trim_sequence_previews s = s := by
            unfold _trim_sequence_previews
            rw [hl]
          rw [hts]
          unfold compress_tool_result
          rw [if_neg he, hts, if_neg (by rw [hts] at hlen; exact hlen)]
        | arr a =>
          have hts : _trim_sequence_previews s = s := by
            unfold _trim_sequence_previews
            rw [hl]
          rw [hts]
          unfold compress_tool_result
          rw [if_neg he, hts, if_neg (by rw [hts] at hlen; exact hlen)]

/-- Per-message form of `prune_thinking_blocks`. -/
def pruneMsg (msg : Msg) : Msg :=
  match msg.content with
  | .blocks bs =>
    if msg.role = pystr "assistant" then ⟨msg.role, .blocks (bs.map pruneBlock)⟩
    else msg
  | _ => msg

theorem prune_eq_map (l : List Msg) : prune_thinking_blocks l = l.map pruneMsg := rfl

/-- Tool-result compression lifted to one block: `compress_tool_result` is
applied to the content of every tool-result block. -/
def compressBlock : Block → Block
  | .toolResult id c => .toolResult id (compress_tool_result c)
  | b => b

/-- Per-message tool-result compression. -/
def compressMsg (msg : Msg) : Msg :=
  match msg.content with
  | .blocks bs => ⟨msg.role, .blocks (bs.map compressBlock)⟩
  | _ => msg

/-- Tool-result compression applied across a message log. -/
def compress_results_in_log (messages : List Msg) : List Msg :=
  messages.map compressMsg

/-- The context-window pipeline of the spec: thinking-block pruning, then
tool-result compression, then history summarization. -/
def pipeline (log : List Msg) : List Msg :=
  maybe_summarize_history (compress_results_in_log (prune_thinking_blocks log))

theorem pruneBlock_idem (b : Block) : pruneBlock (pruneBlock b) = pruneBlock b := by
  cases b <;> rfl

theorem prune_compress_prune (b : Block) :
    pruneBlock (compressBlock (pruneBlock b)) = compressBlock (pruneBlock b) := by
  cases b <;> rfl

theorem prune_condense (b : Block) :
    pruneBlock (condenseBlock b) = condenseBlock b := by
  cases b with
  | text t =>
    simp only [condenseBlock]
    split <;> rfl
  | toolResult id c =>
    simp only [condenseBlock]
    split <;> rfl
  | thinking t sig => rfl
  | toolUse i n inp => rfl
  | other => rfl

theorem mapEq {α β : Type} (f g : α → β) (l : List α) (h : ∀ a, f a = g a) :
    l.map f = l.map g := by
  induction l with
  | nil => rfl
  | cons a tl ih => rw [List.map_cons, List.map_cons, h a, ih]

theorem pruneMsg_pruneMsg (m : Msg) : pruneMsg (pruneMsg m) = pruneMsg m := by
  obtain ⟨role, content⟩ := m
  cases content with
  | str s => rfl
  | blocks bs =>
    by_cases hr : role = pystr "assistant"
    · simp only [pruneMsg, hr, if_pos, List.map_map]
      rw [mapEq (pruneBlock ∘ pruneBlock) pruneBlock bs (fun b => pruneBlock_idem b)]
    · simp only [pruneMsg, if_neg hr]

theorem pruneMsg_compressMsg (m : Msg) :
    pruneMsg (compressMsg (pruneMsg m)) = compressMsg (pruneMsg m) := by
  obtain ⟨role, content⟩ := m
  cases content with
  | str s => rfl
  | blocks bs =>
    by_cases hr : role = pystr "assistant"
    · simp only [pruneMsg, compressMsg, hr, if_pos, List.map_map]
      rw [mapEq (pruneBlock ∘ compressBlock ∘ pruneBlock) (compressBlock ∘ pruneBlock) bs
        (fun b => prune_compress_prune b)]
    · simp only [pruneMsg, compressMsg, if_neg hr]

theorem pruneMsg_condense (m : Msg) :
    pruneMsg (_condense_message m) = _condense_message m := by
  obtain ⟨role, content⟩ := m
  cases content with
  | str s =>
    simp only [_condense_message]
    split <;> rfl
  | blocks bs =>
    simp only [_condense_message]
    by_cases hr : role = pystr "assistant"
    · simp only [pruneMsg, hr, if_pos, List.map_map]
      rw [mapEq (pruneBlock ∘ condenseBlock) condenseBlock bs (fun b => prune_condense b)]
    · simp only [pruneMsg, if_neg hr]

/-- The condensation marker ends with a right bracket. -/
theorem CONDENSED_split :
    pystr "...[condensed]" = pystr "...[condensed" ++ [']'] := by decide

theorem compress_condensed (c : Str) :
    compress_tool_result (c.take 200 ++ pystr "...[condensed]")
      = c.take 200 ++ pystr "...[condensed]" := by
  rw [CONDENSED_split, ← List.append_assoc]
  apply compress_fix_of_short_bracket
  rw [List.length_append, List.length_append, List.length_take,
    show (pystr "...[condensed").length = 13 from rfl,
    show ([']'] : Str).length = 1 from rfl,
    show MAX_TOOL_RESULT_CHARS = 2000 from rfl]
  omega

theorem compressBlock_idem (b : Block) :
    compressBlock (compressBlock b) = compressBlock b := by
  cases b with
  | toolResult id c =>
    show Block.toolResult id (compress_tool_result (compress_tool_result c))
      = Block.toolResult id (compress_tool_result c)
    rw [compress_idem]
  | thinking t sig => rfl
  | text t => rfl
  | toolUse i n inp => rfl
  | other => rfl

theorem compress_condense_compress (b : Block) :
    compressBlock (condenseBlock (compressBlock b)) = condenseBlock (compressBlock b) := by
  cases b with
  | toolResult id c =>
    show compressBlock (condenseBlock (Block.toolResult id (compress_tool_result c)))
      = condenseBlock (Block.toolResult id (compress_tool_result c))
    simp only [condenseBlock]
    split
    · show Block.toolResult id (compress_tool_result ((compress_tool_result c).take 200
          ++ pystr "...[condensed]"))
        = Block.toolResult id ((compress_tool_result c).take 200 ++ pystr "...[condensed]")
      rw [compress_condensed]
    · show Block.toolResult id (compress_tool_result (compress_tool_result c))
        = Block.toolResult id (compress_tool_result c)
      rw [compress_idem]
  | thinking t sig => rfl
  | text t =>
    show compressBlock (condenseBlock (Block.text t)) = condenseBlock (Block.text t)
    simp only [condenseBlock]
    split <;> rfl
  | toolUse i n inp => rfl
  | other => rfl

theorem compressMsg_compressMsg (m : Msg) :
    compressMsg (compressMsg m) = compressMsg m := by
  obtain ⟨role, content⟩ := m
  cases content with
  | str s => rfl
  | blocks bs =>
    simp only [compressMsg, List.map_map]
    rw [mapEq (compressBlock ∘ compressBlock) compressBlock bs (fun b => compressBlock_idem b)]

theorem compressMsg_condense_compress (m : Msg) :
    compressMsg (_condense_message (compressMsg m)) = _condense_message (compressMsg m) := by
  obtain ⟨role, content⟩ := m
  cases content with
  | str s =>
    show compressMsg (_condense_message ⟨role, .str s⟩) = _condense_message ⟨role, .str s⟩
    simp only [_condense_message]
    split <;> rfl
  | blocks bs =>
    show compressMsg (_condense_message ⟨role, .blocks (bs.map compressBlock)⟩)
      = _condense_message ⟨role, .blocks (bs.map compressBlock)⟩
    simp only [_condense_message, compressMsg, List.map_map]
    rw [mapEq (compressBlock ∘ condenseBlock ∘ compressBlock) (condenseBlock ∘ compressBlock) bs
      (fun b => compress_condense_compress b)]

theorem condenseBlock_idem (b : Block) :
    condenseBlock (condenseBlock b) = condenseBlock b := by
  cases b with
  | thinking t sig => rfl
  | toolUse i n inp => rfl
  | other => rfl
  | text t =>
    simp only [condenseBlock]
    by_cases h : 200 < t.length
    · rw [if_pos h]
      simp only [condenseBlock]
      rw [if_pos (by
        rw [List.length_append, List.length_take, show (pystr "...").length = 3 from rfl]
        omega)]
      rw [List.take_left' (by rw [List.length_take]; omega)]
    · rw [if_neg h]
      simp only [condenseBlock]
      rw [if_neg h]
  | toolResult id c =>
    simp only [condenseBlock]
    by_cases h : 200 < c.length
    · rw [if_pos h]
      simp only [condenseBlock]
      rw [if_pos (by
        rw [List.length_append, List.length_take,
          show (pystr "...[condensed]").length = 14 from rfl]
        omega)]
      rw [List.take_left' (by rw [List.length_take]; omega)]
    · rw [if_neg h]
      simp only [condenseBlock]
      rw [if_neg h]

theorem condense_idem (m : Msg) :
    _condense_message (_condense_message m) = _condense_message m := by
  obtain ⟨role, content⟩ := m
  cases content with
  | str s =>
    simp only [_condense_message]
    by_cases h : 200 < s.length
    · rw [if_pos h]
      simp only [_condense_message]
      rw [if_pos (by
        rw [List.length_append, List.length_take, show (pystr "...").length = 3 from rfl]
        omega)]
      rw [List.take_left' (by rw [List.length_take]; omega)]
    · rw [if_neg h]
      simp only [_condense_message]
      rw [if_neg h]
  | blocks bs =>
    simp only [_condense_message, List.map_map]
    rw [mapEq (condenseBlock ∘ condenseBlock) condenseBlock bs (fun b => condenseBlock_idem b)]

theorem mapFixed {α : Type} (f : α → α) :
    ∀ l : List α, (∀ a ∈ l, f a = a) → l.map f = l := by
  intro l
  induction l with
  | nil => intro _; rfl
  | cons a tl ih =>
    intro h
    rw [List.map_cons, h a (by simp), ih (fun b hb => h b (by simp [hb]))]

theorem maybe_summarize_idem (y : List Msg) :
    maybe_summarize_history (maybe_summarize_history y) = maybe_summarize_history y := by
  by_cases h1 : estimate_tokens y ≤ TOKEN_THRESHOLD
  · have hz : maybe_summarize_history y = y := by
      unfold maybe_summarize_history
      rw [if_pos h1]
    rw [hz, hz]
  · by_cases h2 : y.length ≤ 10
    · have hz : maybe_summarize_history y = y := by
        unfold maybe_summarize_history
        rw [if_neg h1, if_pos h2]
      rw [hz, hz]
    · set A := y.take 2 with hA0
      set B := ((y.drop 2).take (y.length - 10)).map _condense_message with hB0
      set C := y.drop (y.length - 8) with hC0
      have hz : maybe_summarize_history y = A ++ B ++ C := by
        unfold maybe_summarize_history
        rw [if_neg h1, if_neg h2]
      have hn : 10 < y.length := by omega
      have hA : A.length = 2 := by
        rw [hA0, List.length_take]
        omega
      have hB : B.length = y.length - 10 := by
        rw [hB0, List.length_map, List.length_take, List.length_drop]
        omega
      have hlen : (A ++ B ++ C).length = y.length := by
        rw [List.length_append, List.length_append, hA, hB, hC0, List.length_drop]
        omega
      rw [hz]
      by_cases h3 : estimate_tokens (A ++ B ++ C) ≤ TOKEN_THRESHOLD
      · unfold maybe_summarize_history
        rw [if_pos h3]
      · unfold maybe_summarize_history
        rw [if_neg h3, hlen, if_neg h2]
        have t1 : (A ++ B ++ C).take 2 = A := by
          rw [List.append_assoc, show (2 : Nat) = A.length from hA.symm, List.take_left]
        have t2 : (A ++ B ++ C).drop 2 = B ++ C := by
          rw [List.append_assoc, show (2 : Nat) = A.length from hA.symm, List.drop_left]
        have t3 : (B ++ C).take (y.length - 10) = B := by
          rw [show y.length - 10 = B.length from hB.symm, List.take_left]
        have t4 : (A ++ B ++ C).drop (y.length - 8) = C := by
          rw [show y.length - 8 = (A ++ B).length by rw [List.length_append, hA, hB]; omega,
            List.drop_left]
        have t5 : B.map _condense_message = B := by
          rw [hB0, List.map_map]
          rw [mapEq (_condense_message ∘ _condense_message) _condense_message _
            (fun m => condense_idem m)]
        rw [t1, t2, t3, t5, t4]

theorem mem_summarize (y : List Msg) (m : Msg) (hm : m ∈ maybe_summarize_history y) :
    m ∈ y ∨ ∃ m0 ∈ y, m = _condense_message m0 := by
  unfold maybe_summarize_history at hm
  by_cases h1 : estimate_tokens y ≤ TOKEN_THRESHOLD
  · rw [if_pos h1] at hm
    exact Or.inl hm
  · rw [if_neg h1] at hm
    by_cases h2 : y.length ≤ 10
    · rw [if_pos h2] at hm
      exact Or.inl hm
    · rw [if_neg h2] at hm
      rcases List.mem_append.mp hm with hm' | hmC
      · rcases List.mem_append.mp hm' with hmA | hmB
        · exact Or.inl (List.mem_of_mem_take hmA)
        · obtain ⟨m0, hm0, hme⟩ := List.mem_map.mp hmB
          exact Or.inr ⟨m0, List.mem_of_mem_drop (List.mem_of_mem_take hm0), hme.symm⟩
      · exact Or.inl (List.mem_of_mem_drop hmC)

/-- C5: the pruning / compression / summarization pipeline is idempotent:
applying it to its own output changes nothing. -/
theorem pipeline_idempotent (log : List Msg) : pipeline (pipeline log) = pipeline log := by
  unfold pipeline
  set y := compress_results_in_log (prune_thinking_blocks log) with hy0
  have hyform : ∀ m ∈ y, ∃ m0, m = compressMsg (pruneMsg m0) := by
    intro m hm
    rw [hy0] at hm
    unfold compress_results_in_log at hm
    obtain ⟨m1, hm1, hme⟩ := List.mem_map.mp hm
    rw [prune_eq_map] at hm1
    obtain ⟨m0, _, hm0e⟩ := List.mem_map.mp hm1
    exact ⟨m0, by rw [← hme, ← hm0e]⟩
  have hfix : ∀ m ∈ maybe_summarize_history y, pruneMsg m = m ∧ compressMsg m = m := by
    intro m hm
    rcases mem_summarize y m hm with hmy | ⟨m1, hm1, rfl⟩
    · obtain ⟨m0, rfl⟩ := hyform m hmy
      exact ⟨pruneMsg_compressMsg m0, compressMsg_compressMsg (pruneMsg m0)⟩
    · obtain ⟨m0, rfl⟩ := hyform m1 hm1
      exact ⟨pruneMsg_condense _, compressMsg_condense_compress (pruneMsg m0)⟩
  have hR : prune_thinking_blocks (maybe_summarize_history y) = maybe_summarize_history y := by
    rw [prune_eq_map]
    exact mapFixed pruneMsg _ (fun m hm => (hfix m hm).1)
  have hC : compress_results_in_log (maybe_summarize_history y) = maybe_summarize_history y := by
    unfold compress_results_in_log
    exact mapFixed compressMsg _ (fun m hm => (hfix m hm).2)
  rw [hR, hC, maybe_summarize_idem]
